import Mathlib

/-!
Verification of the number-merging game core found in `Assignment.py` and
`game.py` (repository `AI_20`).

The development shallowly embeds the two `GameState` classes and the
`GameTree` persistence layer.  Python machine behaviour is modelled
explicitly:

* Python list indexing (which accepts negative indices and raises
  `IndexError` on out-of-bounds access) is modelled by `pyResolveIndex` /
  `pyGetItem` / `pySetItem` / `pyDelItem`, each returning `Option` where
  `none` stands for a raised `IndexError`.
* `make_move` returns `Except Unit GameState`; `.error ()` models a Python
  exception escaping the method (the state is unchanged at that point,
  because the failing list access happens before any mutation).
* Scores (`total_points`) are unbounded Python ints, embedded as `Int`;
  Python `%` on ints agrees with Lean's `Int.emod` for a positive modulus.
* The winner strings `"Player Wins!"`, `"AI Wins!"`, `"It's a Draw!"` are
  embedded as the inductive `Winner`; `None` becomes `Option.none`.  A
  winner string is always truthy, so `if self.winner:` becomes
  `winner ≠ none`.
* Heuristic values (Python floats) are embedded as `ℚ`.  All constants in
  `Assignment.py` are multiples of `1/2`, hence exact in binary floats; in
  `game.py` the term `10 / len` is not exactly representable, so there `ℚ`
  is an exact-arithmetic idealisation of the float computation (this does
  not affect the pruning-equivalence statement, which holds for any
  evaluation function used identically on both sides).  `math.inf` /
  `-math.inf` are embedded via `WithBot (WithTop ℚ)`.
* Display-only fields (`last_ai_move`, `last_move_details`, `ai_thoughts`)
  carry no game semantics and are omitted from the state records.
-/

/-- The three winner strings of the source, as an inductive type:
`player` = "Player Wins!", `ai` = "AI Wins!", `draw` = "It's a Draw!". -/
inductive Winner where
  | player
  | ai
  | draw
deriving DecidableEq, Repr

/-- The two move kinds, the strings "merge" and "remove" of the source. -/
inductive MoveT where
  | merge
  | remove
deriving DecidableEq, Repr

/-- A move as produced by `get_possible_moves`: a `(move_type, index)` pair
with a non-negative index. -/
abbrev Move := MoveT × Nat

/-- Resolve a Python list index for a list of length `n`: non-negative
indices address from the front, negative indices from the back; `none`
models a raised `IndexError`. -/
def pyResolveIndex (n : Nat) (i : Int) : Option Nat :=
  if 0 ≤ i then
    if i < (n : Int) then some i.toNat else none
  else
    if 0 ≤ i + n then some (i + n).toNat else none

/-- Python `l[i]` on a list of naturals. -/
def pyGetItem (l : List Nat) (i : Int) : Option Nat :=
  (pyResolveIndex l.length i).bind fun k => l.get? k

/-- Python `l[i] = v`. -/
def pySetItem (l : List Nat) (i : Int) (v : Nat) : Option (List Nat) :=
  (pyResolveIndex l.length i).map fun k => l.set k v

/-- Python `del l[i]` (also the list produced by `l.pop(i)`). -/
def pyDelItem (l : List Nat) (i : Int) : Option (List Nat) :=
  (pyResolveIndex l.length i).map fun k => l.eraseIdx k

/-- The merge computation of `Assignment.py`:
`(num1 + num2) % 6 or 6` — Python `or` yields `6` exactly when the left
operand is the falsy int `0`. -/
def mergeDigitAssign (num1 num2 : Nat) : Nat :=
  if (num1 + num2) % 6 = 0 then 6 else (num1 + num2) % 6

/-- The merge computation of `game.py`:
`(num1 + num2) if (num1 + num2) <= 6 else (num1 + num2 - 6)`. -/
def mergeDigitGame (num1 num2 : Nat) : Nat :=
  if num1 + num2 ≤ 6 then num1 + num2 else num1 + num2 - 6

namespace Assignment

/-- The `GameState` of `Assignment.py` (display-only fields omitted).
`starting_player` is `1` for the human player and `2` for the AI. -/
structure GameState where
  total_points : Int
  numbers_list : List Nat
  winner : Option Winner := none
  starting_player : Nat := 1
deriving DecidableEq, Repr

/-- `GameState.clone` of `Assignment.py`: a fresh state with a copied list
and the same points, winner and starting player. -/
def GameState.clone (s : GameState) : GameState :=
  { total_points := s.total_points
    numbers_list := s.numbers_list
    winner := s.winner
    starting_player := s.starting_player }

/-- The winner value computed by the `len == 1` branch of
`GameState.check_winner` in `Assignment.py`. -/
def winnerValue (final_num : Nat) (total_points : Int) (starting_player : Nat) :
    Winner :=
  if (final_num % 2 : Int) = total_points % 2 then
    if (final_num % 2 = 0 ∧ starting_player = 1) ∨
       (final_num % 2 = 1 ∧ starting_player = 2) then
      .player
    else
      .ai
  else
    .draw

/-- `GameState.check_winner` of `Assignment.py`: when exactly one number
remains, set `winner` from the parity rule; otherwise do nothing. -/
def GameState.check_winner (s : GameState) : GameState :=
  match s.numbers_list with
  | [final_num] =>
      { s with
        winner := some (winnerValue final_num s.total_points s.starting_player) }
  | _ => s

/-- `GameState.make_move` of `Assignment.py`.  Follows the source line by
line: an early return when a winner is set; the merge branch guarded by
`move_type == "merge" and index < len - 1`; the remove branch guarded by
`move_type == "remove" and index < len`; otherwise a fall-through.  All
three non-early paths end with `self.check_winner()`.  `.error ()` models
an `IndexError` raised by a negative index below `-len` (the read happens
before any mutation, so the state is unchanged when it is raised). -/
def GameState.make_move (s : GameState) (index : Int) (move_type : MoveT) :
    Except Unit GameState :=
  if s.winner ≠ none then .ok s
  else if move_type = .merge ∧ index < (s.numbers_list.length : Int) - 1 then
    match pyGetItem s.numbers_list index, pyGetItem s.numbers_list (index + 1) with
    | some num1, some num2 =>
      let new_sum := mergeDigitAssign num1 num2
      match pySetItem s.numbers_list index new_sum with
      | some l1 =>
        match pyDelItem l1 (index + 1) with
        | some l2 =>
            .ok (GameState.check_winner
              { s with numbers_list := l2, total_points := s.total_points + 1 })
        | none => .error ()
      | none => .error ()
    | _, _ => .error ()
  else if move_type = .remove ∧ index < (s.numbers_list.length : Int) then
    match pyDelItem s.numbers_list index with
    | some l1 =>
        .ok (GameState.check_winner
          { s with numbers_list := l1, total_points := s.total_points - 1 })
    | none => .error ()
  else
    .ok (GameState.check_winner s)

/-- `GameState.get_possible_moves` of `Assignment.py`: no moves once a
winner is set; otherwise all merges over `range(len - 1)` followed by the
removes over `range(len)`, each of the latter guarded by the
loop-invariant condition `len(self.numbers_list) > 1`. -/
def GameState.get_possible_moves (s : GameState) : List Move :=
  if s.winner ≠ none then []
  else
    (List.range (s.numbers_list.length - 1)).map (fun i => (MoveT.merge, i)) ++
      (List.range s.numbers_list.length).flatMap
        (fun i => if 1 < s.numbers_list.length then [(MoveT.remove, i)] else [])

/-- `GameState.evaluate_heuristic` of `Assignment.py` (floats as `ℚ`).
Terminal states (`len == 1`) score `±1000` or `0` by the same parity test
as `check_winner`; otherwise `2 * points + 0.5 * #moves + 1.5 * #digits
matching the score parity`. -/
def GameState.evaluate_heuristic (s : GameState) : ℚ :=
  match s.numbers_list with
  | [final_num] =>
      if (final_num % 2 : Int) = s.total_points % 2 then
        if (final_num % 2 = 0 ∧ s.starting_player = 1) ∨
           (final_num % 2 = 1 ∧ s.starting_player = 2) then
          1000
        else
          -1000
      else
        0
  | _ =>
      2 * (s.total_points : ℚ) +
        (1 / 2 : ℚ) * (s.get_possible_moves.length : ℚ) +
        (3 / 2 : ℚ) *
          ((s.numbers_list.filter
            (fun num => (num % 2 : Int) = s.total_points % 2)).length : ℚ)

end Assignment

namespace Game

/-- The `GameState` of `game.py` (display-only fields omitted).  Unlike
`Assignment.py` it has no `starting_player` field. -/
structure GameState where
  total_points : Int
  numbers_list : List Nat
  winner : Option Winner := none
deriving DecidableEq, Repr

/-- `GameState.clone` of `game.py`: `GameState(self.total_points,
self.numbers_list.copy())` — the constructor leaves `winner = None`, so
the clone does not carry over the winner. -/
def GameState.clone (s : GameState) : GameState :=
  { total_points := s.total_points
    numbers_list := s.numbers_list
    winner := none }

/-- `GameState.check_winner` of `game.py`: the parity rule without a
starting-player marker ("Player Wins!" on shared even parity, "AI Wins!"
on shared odd parity, draw otherwise). -/
def GameState.check_winner (s : GameState) : GameState :=
  match s.numbers_list with
  | [final_num] =>
      { s with
        winner :=
          some (if (final_num % 2 : Int) = s.total_points % 2 then
                  if final_num % 2 = 0 then .player else .ai
                else
                  .draw) }
  | _ => s

/-- `GameState.make_move` of `game.py`: identical control flow to the
`Assignment.py` version but with the other wraparound formula and this
module's `check_winner`. -/
def GameState.make_move (s : GameState) (index : Int) (move_type : MoveT) :
    Except Unit GameState :=
  if s.winner ≠ none then .ok s
  else if move_type = .merge ∧ index < (s.numbers_list.length : Int) - 1 then
    match pyGetItem s.numbers_list index, pyGetItem s.numbers_list (index + 1) with
    | some num1, some num2 =>
      let new_sum := mergeDigitGame num1 num2
      match pySetItem s.numbers_list index new_sum with
      | some l1 =>
        match pyDelItem l1 (index + 1) with
        | some l2 =>
            .ok (GameState.check_winner
              { s with numbers_list := l2, total_points := s.total_points + 1 })
        | none => .error ()
      | none => .error ()
    | _, _ => .error ()
  else if move_type = .remove ∧ index < (s.numbers_list.length : Int) then
    match pyDelItem s.numbers_list index with
    | some l1 =>
        .ok (GameState.check_winner
          { s with numbers_list := l1, total_points := s.total_points - 1 })
    | none => .error ()
  else
    .ok (GameState.check_winner s)

/-- `GameState.get_possible_moves` of `game.py`: no moves once a winner is
set; otherwise all merges over `range(len - 1)` followed by all removes
over `range(len)` — with no `len > 1` guard on the removes. -/
def GameState.get_possible_moves (s : GameState) : List Move :=
  if s.winner ≠ none then []
  else
    (List.range (s.numbers_list.length - 1)).map (fun i => (MoveT.merge, i)) ++
      (List.range s.numbers_list.length).map (fun i => (MoveT.remove, i))

/-- `clone` followed by `make_move`, as the search and heuristic code of
`game.py` uses it.  The callers only pass indices produced by `range`, for
which `make_move` never raises; the `.error` arm (returning the state
unchanged) is therefore never taken there. -/
def GameState.cloneMove (s : GameState) (index : Int) (move_type : MoveT) :
    GameState :=
  match s.clone.make_move index move_type with
  | .ok t => t
  | .error _ => s.clone

/-- `GameState.evaluate_heuristic` of `game.py` (floats as `ℚ`; the term
`10 / len` is exact rational arithmetic here, and `ℚ` totalises the
division at `len = 0`, where CPython would raise `ZeroDivisionError`).
Accumulates, in source order: `2 * points`, `1 * #moves`,
`(1 + 10 / len) * #parity matches`, `+2` for every removal that would
strictly increase the parity-match count, the terminal adjustment when
`len == 1` (`+100` shared even parity, `+80` shared odd parity, `−100`
otherwise), and finally `−0.5 * len`. -/
def GameState.evaluate_heuristic (s : GameState) : ℚ :=
  let points_score : ℚ := 2 * (s.total_points : ℚ)
  let options_score : ℚ := 1 * (s.get_possible_moves.length : ℚ)
  let parity_importance : ℚ := 1 + 10 / (s.numbers_list.length : ℚ)
  let parity_match : Nat :=
    (s.numbers_list.filter
      (fun num => (num % 2 : Int) = s.total_points % 2)).length
  let parity_score : ℚ := parity_importance * (parity_match : ℚ)
  let removal_bonus : ℚ :=
    ((List.range s.numbers_list.length).map (fun i =>
      let temp_state := s.cloneMove (i : Int) .remove
      let new_parity :=
        (temp_state.numbers_list.filter
          (fun num => (num % 2 : Int) = temp_state.total_points % 2)).length
      if parity_match < new_parity then (2 : ℚ) else 0)).sum
  let base := points_score + options_score + parity_score + removal_bonus
  let afterTerminal :=
    match s.numbers_list with
    | [final_num] =>
        if (final_num % 2 : Int) = s.total_points % 2 then
          base + (if final_num % 2 = 0 then 100 else 80)
        else
          base - 100
    | _ => base
  afterTerminal - (1 / 2 : ℚ) * (s.numbers_list.length : ℚ)

end Game

/-- Extended heuristic values: a rational together with `-math.inf` (`⊥`)
and `math.inf` (`⊤`). -/
abbrev XQ := WithBot (WithTop ℚ)

/-- Embed a finite heuristic value into `XQ`. -/
def XQ.ofQ (q : ℚ) : XQ := ((q : WithTop ℚ) : XQ)

section Search

variable {S M : Type} (term : S → Bool) (eval : S → ℚ) (moves : S → List M)
  (child : S → M → S)

mutual

/-- The `minimax` method shared verbatim (up to the evaluation function
and move generator) by `Assignment.py` and `game.py`: alpha-beta pruned,
fail-soft, strict-improvement move selection.  `term s` is the truthiness
of `self.winner`; `child s m` is `clone` + `make_move`. -/
def abSearch (s : S) (depth : Nat) (alpha beta : XQ) (maximizing : Bool) :
    XQ × Option M :=
  if term s then (XQ.ofQ (eval s), none)
  else
    match depth with
    | 0 => (XQ.ofQ (eval s), none)
    | d + 1 =>
        if maximizing then abMaxLoop s d (moves s) alpha beta ⊥ none
        else abMinLoop s d (moves s) alpha beta ⊤ none
termination_by (depth, 0)

/-- The maximizing `for move in self.get_possible_moves():` loop of
`minimax`: update `max_eval`/`best_move` on strict improvement, raise
`alpha`, and `break` as soon as `beta <= alpha`. -/
def abMaxLoop (s : S) (d : Nat) (ms : List M) (alpha beta max_eval : XQ)
    (best_move : Option M) : XQ × Option M :=
  match ms with
  | [] => (max_eval, best_move)
  | m :: rest =>
      let evaluation := (abSearch (child s m) d alpha beta false).1
      let max_eval' := if max_eval < evaluation then evaluation else max_eval
      let best_move' := if max_eval < evaluation then some m else best_move
      let alpha' := max alpha evaluation
      if beta ≤ alpha' then (max_eval', best_move')
      else abMaxLoop s d rest alpha' beta max_eval' best_move'
termination_by (d, ms.length + 1)

/-- The minimizing loop of `minimax`, dual to `abMaxLoop`. -/
def abMinLoop (s : S) (d : Nat) (ms : List M) (alpha beta min_eval : XQ)
    (best_move : Option M) : XQ × Option M :=
  match ms with
  | [] => (min_eval, best_move)
  | m :: rest =>
      let evaluation := (abSearch (child s m) d alpha beta true).1
      let min_eval' := if evaluation < min_eval then evaluation else min_eval
      let best_move' := if evaluation < min_eval then some m else best_move
      let beta' := min beta evaluation
      if beta' ≤ alpha then (min_eval', best_move')
      else abMinLoop s d rest alpha beta' min_eval' best_move'
termination_by (d, ms.length + 1)

end

mutual

/-- Modelled from the spec: the unpruned minimax reference search with the
same generator order and strict-improvement first-tie-wins selection, for
the refinement claim about alpha-beta. -/
def plainSearch (s : S) (depth : Nat) (maximizing : Bool) : XQ × Option M :=
  if term s then (XQ.ofQ (eval s), none)
  else
    match depth with
    | 0 => (XQ.ofQ (eval s), none)
    | d + 1 =>
        if maximizing then plainMaxLoop s d (moves s) ⊥ none
        else plainMinLoop s d (moves s) ⊤ none
termination_by (depth, 0)

/-- Modelled from the spec: the maximizing loop of the unpruned reference. -/
def plainMaxLoop (s : S) (d : Nat) (ms : List M) (best_eval : XQ)
    (best_move : Option M) : XQ × Option M :=
  match ms with
  | [] => (best_eval, best_move)
  | m :: rest =>
      let v := (plainSearch (child s m) d false).1
      if best_eval < v then plainMaxLoop s d rest v (some m)
      else plainMaxLoop s d rest best_eval best_move
termination_by (d, ms.length + 1)

/-- Modelled from the spec: the minimizing loop of the unpruned reference. -/
def plainMinLoop (s : S) (d : Nat) (ms : List M) (best_eval : XQ)
    (best_move : Option M) : XQ × Option M :=
  match ms with
  | [] => (best_eval, best_move)
  | m :: rest =>
      let v := (plainSearch (child s m) d true).1
      if v < best_eval then plainMinLoop s d rest v (some m)
      else plainMinLoop s d rest best_eval best_move
termination_by (d, ms.length + 1)

end

end Search

namespace Assignment

/-- `clone` followed by `make_move`, the `new_state` construction inside
`minimax` of `Assignment.py`.  Search indices come from `range` and never
raise, so the `.error` arm is never taken there. -/
def GameState.cloneMove (s : GameState) (index : Int) (move_type : MoveT) :
    GameState :=
  match s.clone.make_move index move_type with
  | .ok t => t
  | .error _ => s.clone

/-- Truthiness of `self.winner` in `Assignment.py` (winner strings are
non-empty, hence truthy). -/
def winnerFlag (s : GameState) : Bool := s.winner.isSome

/-- Apply a generated `(move_type, index)` pair to a clone, as
`minimax` does with `new_state.make_move(move[1], move[0])`. -/
def childState (s : GameState) (m : Move) : GameState :=
  s.cloneMove (m.2 : Int) m.1

/-- `GameState.minimax` of `Assignment.py`: the shared alpha-beta search
instantiated with this module's winner test, heuristic, move generator and
child construction. -/
def GameState.minimax (s : GameState) (depth : Nat) (alpha beta : XQ)
    (maximizing_player : Bool) : XQ × Option Move :=
  abSearch winnerFlag GameState.evaluate_heuristic GameState.get_possible_moves
    childState s depth alpha beta maximizing_player

/-- Modelled from the spec: the unpruned reference search for
`Assignment.py`'s `minimax`, same generator order and tie-breaking. -/
def GameState.plain_minimax (s : GameState) (depth : Nat)
    (maximizing_player : Bool) : XQ × Option Move :=
  plainSearch winnerFlag GameState.evaluate_heuristic
    GameState.get_possible_moves childState s depth maximizing_player

end Assignment

namespace Game

/-- Truthiness of `self.winner` in `game.py`. -/
def winnerFlag (s : GameState) : Bool := s.winner.isSome

/-- Apply a generated `(move_type, index)` pair to a clone, as `minimax`
of `game.py` does. -/
def childState (s : GameState) (m : Move) : GameState :=
  s.cloneMove (m.2 : Int) m.1

/-- `GameState.minimax` of `game.py` (source argument order
`(depth, maximizing_player, alpha, beta)`, where the callers' defaulted
`alpha`/`beta` are `float('-inf')`/`float('inf')`, i.e. `⊥`/`⊤`). -/
def GameState.minimax (s : GameState) (depth : Nat)
    (maximizing_player : Bool) (alpha beta : XQ) : XQ × Option Move :=
  abSearch winnerFlag GameState.evaluate_heuristic GameState.get_possible_moves
    childState s depth alpha beta maximizing_player

/-- Modelled from the spec: the unpruned reference search for `game.py`'s
`minimax`, same generator order and tie-breaking. -/
def GameState.plain_minimax (s : GameState) (depth : Nat)
    (maximizing_player : Bool) : XQ × Option Move :=
  plainSearch winnerFlag GameState.evaluate_heuristic
    GameState.get_possible_moves childState s depth maximizing_player

end Game

namespace Assignment

/-- Run `make_move` as a statement: on success the mutated state, on an
exception the unchanged state (the failing list read happens before any
mutation, so a raised `IndexError` leaves the Python object untouched). -/
def GameState.applyMove (s : GameState) (index : Int) (move_type : MoveT) :
    GameState :=
  match s.make_move index move_type with
  | .ok t => t
  | .error _ => s

/-- Fold a list of `(index, move_type)` calls over a state. -/
def GameState.applyMoves (s : GameState) (ms : List (Int × MoveT)) : GameState :=
  ms.foldl (fun t m => t.applyMove m.1 m.2) s

/-- A `make_move` call that actually mutates: no winner yet, the branch
guard of the move type holds, and the index resolves without raising
(`index ≥ -len`). -/
def SuccMove (s : GameState) (index : Int) (move_type : MoveT) : Prop :=
  s.winner = none ∧ -(s.numbers_list.length : Int) ≤ index ∧
    index < (if move_type = .merge then (s.numbers_list.length : Int) - 1
             else (s.numbers_list.length : Int))

instance (s : GameState) (index : Int) (move_type : MoveT) :
    Decidable (SuccMove s index move_type) := by
  unfold SuccMove; infer_instance

/-- States reachable by successful (mutating) `make_move` calls. -/
inductive Reaches : GameState → GameState → Prop where
  | refl (s : GameState) : Reaches s s
  | step {s t u : GameState} (index : Int) (move_type : MoveT) :
      Reaches s t → SuccMove t index move_type →
      t.make_move index move_type = .ok u → Reaches s u

end Assignment

namespace Game

/-- Run `make_move` as a statement (see the `Assignment` version). -/
def GameState.applyMove (s : GameState) (index : Int) (move_type : MoveT) :
    GameState :=
  match s.make_move index move_type with
  | .ok t => t
  | .error _ => s

/-- Fold a list of `(index, move_type)` calls over a state. -/
def GameState.applyMoves (s : GameState) (ms : List (Int × MoveT)) : GameState :=
  ms.foldl (fun t m => t.applyMove m.1 m.2) s

/-- A `make_move` call that actually mutates (see the `Assignment`
version). -/
def SuccMove (s : GameState) (index : Int) (move_type : MoveT) : Prop :=
  s.winner = none ∧ -(s.numbers_list.length : Int) ≤ index ∧
    index < (if move_type = .merge then (s.numbers_list.length : Int) - 1
             else (s.numbers_list.length : Int))

instance (s : GameState) (index : Int) (move_type : MoveT) :
    Decidable (SuccMove s index move_type) := by
  unfold SuccMove; infer_instance

/-- States reachable by successful (mutating) `make_move` calls. -/
inductive Reaches : GameState → GameState → Prop where
  | refl (s : GameState) : Reaches s s
  | step {s t u : GameState} (index : Int) (move_type : MoveT) :
      Reaches s t → SuccMove t index move_type →
      t.make_move index move_type = .ok u → Reaches s u

end Game

namespace Assignment

/-- `GameNode` of `Assignment.py`: a play-history tree node.  The `parent`
back-reference is represented by ownership in the `children` list; `move`
is the `(action, index)` pair or `None` for the root; `heuristic` is the
stored float (default `0`), `depth` the stored counter. -/
inductive GameNode where
  | mk (move : Option Move) (state : GameState) (heuristic : ℚ) (depth : Nat)
      (children : List GameNode)

mutual

/-- Height of a play-history tree in nodes (a root-only tree has height
1); a "tree of depth ≥ 2" in the claim's sense has height ≥ 3. -/
def GameNode.height : GameNode → Nat
  | .mk _ _ _ _ children => 1 + heightList children

/-- Maximum height over a list of sibling nodes. -/
def heightList : List GameNode → Nat
  | [] => 0
  | n :: ns => max n.height (heightList ns)

end

/-- The dictionary produced for one node by `GameNode.to_dict` plus the
`children` list added by `GameTree._node_to_dict`.  `json.dump`/`json.load`
round-trips such dictionaries exactly (the move tuple is written and read
back as a two-element array), which this typed model absorbs by keeping
`move` structural. -/
inductive NodeDict where
  | mk (move : Option Move) (numbers : List Nat) (points : Int)
      (winner : Option Winner) (heuristic : ℚ) (depth : Nat)
      (children_count : Nat) (children : List NodeDict)

namespace GameTree

mutual

/-- `GameTree._node_to_dict` of `Assignment.py` (with `GameNode.to_dict`
inlined): store move, the snapshot's numbers/points/winner, heuristic,
depth, `len(children)`, and the recursively converted children.  (The
`if self.state else` arms of `to_dict` are never taken: every node built
by the program carries a state.) -/
def node_to_dict : GameNode → NodeDict
  | .mk move state heuristic depth children =>
      .mk move state.numbers_list state.total_points state.winner heuristic
        depth children.length (nodes_to_dicts children)

/-- The `children` list of `_node_to_dict`. -/
def nodes_to_dicts : List GameNode → List NodeDict
  | [] => []
  | n :: ns => node_to_dict n :: nodes_to_dicts ns

end

mutual

/-- `GameTree._dict_to_node` of `Assignment.py` on well-formed dicts (the
outputs of `_node_to_dict`; the falsy `if not node_dict` branch and the
dynamically-typed failure paths are modelled separately on raw JSON
values for the loader claim).  `GameState(points, numbers)` leaves
`winner = None` and `starting_player = 1`; the stored `winner` and
`children_count` entries are never read back. -/
def dict_to_node : NodeDict → GameNode
  | .mk move numbers points _w heuristic depth _cc children =>
      .mk move ⟨points, numbers, none, 1⟩ heuristic depth
        (dicts_to_nodes children)

/-- The children reconstruction of `_dict_to_node`. -/
def dicts_to_nodes : List NodeDict → List GameNode
  | [] => []
  | d :: ds => dict_to_node d :: dicts_to_nodes ds

end

mutual

/-- Spec-language helper for the amended round-trip claim: the tree with
every snapshot's `winner` cleared and `starting_player` reset to the
constructor default. -/
def resetSnapshots : GameNode → GameNode
  | .mk move state heuristic depth children =>
      .mk move { state with winner := none, starting_player := 1 } heuristic
        depth (resetSnapshotsList children)

/-- `resetSnapshots` over a children list. -/
def resetSnapshotsList : List GameNode → List GameNode
  | [] => []
  | n :: ns => resetSnapshots n :: resetSnapshotsList ns

end

end GameTree

end Assignment

/-- A JSON value as produced by `json.load`, for the loader's raw inputs. -/
inductive JVal where
  | null
  | bool (b : Bool)
  | num (q : ℚ)
  | str (s : String)
  | arr (elems : List JVal)
  | obj (fields : List (String × JVal))

/-- Python truthiness of a JSON value (`if not node_dict:`). -/
def JVal.truthy : JVal → Bool
  | .null => false
  | .bool b => b
  | .num q => q ≠ 0
  | .str s => s ≠ ""
  | .arr elems => !elems.isEmpty
  | .obj fields => !fields.isEmpty

/-- Python `d[k]` on a decoded JSON object: first matching key, `KeyError`
(`.error`) when absent. -/
def jGetF (fields : List (String × JVal)) (k : String) : Except Unit JVal :=
  match fields.find? (fun p => p.1 = k) with
  | some p => .ok p.2
  | none => .error ()

/-- Python `v[k]`: `TypeError` (`.error`) when `v` is not an object. -/
def JVal.getKey : JVal → String → Except Unit JVal
  | .obj fields, k => jGetF fields k
  | _, _ => .error ()

/-- The node built by `_dict_to_node` from raw JSON: the constructor and
the attribute assignments store the looked-up values as they are (Python
is dynamically typed), so the fields stay raw `JVal`s; the reconstructed
snapshot `GameState(points, numbers)` always has `winner = None`. -/
inductive JNode where
  | mk (move : JVal) (points : JVal) (numbers : JVal) (heuristic : JVal)
      (depth : JVal) (children : List JNode)

namespace Assignment

namespace GameTree

mutual

/-- `GameTree._dict_to_node` of `Assignment.py` on an arbitrary decoded
JSON value.  Falsy values return `None`; otherwise the keyed lookups run
in source order, any `KeyError`/`TypeError` escaping as `.error`; the
`children` entry must be a JSON array (a decoded `children` is one; other
truthy values would fail on their own lookups when iterated), and the
final `child.parent = node` loop raises `AttributeError` when any child
came back as `None`. -/
def dict_to_node_j (v : JVal) : Except Unit (Option JNode) :=
  if v.truthy = false then .ok none
  else
    match v with
    | .obj fields => do
        let move ← jGetF fields "move"
        let st ← jGetF fields "state"
        let points ← st.getKey "points"
        let numbers ← st.getKey "numbers"
        let heuristic ← jGetF fields "heuristic"
        let depth ← jGetF fields "depth"
        let kids ← findParseChildren fields
        if kids.any (fun c => c.isNone) then .error ()
        else .ok (some (.mk move points numbers heuristic depth
          (kids.filterMap id)))
    | _ => .error ()

/-- Locate the `children` entry and parse it (lookup fused with the
recursive descent so the recursion stays structural). -/
def findParseChildren (fields : List (String × JVal)) :
    Except Unit (List (Option JNode)) :=
  match fields with
  | [] => .error ()
  | (k, w) :: rest =>
      if k = "children" then parseChildrenVal w else findParseChildren rest

/-- The `children` value must be an array of node dicts. -/
def parseChildrenVal (w : JVal) : Except Unit (List (Option JNode)) :=
  match w with
  | .arr elems => parseChildrenList elems
  | _ => .error ()

/-- The `[self._dict_to_node(child) for child in ...]` comprehension. -/
def parseChildrenList (elems : List JVal) :
    Except Unit (List (Option JNode)) :=
  match elems with
  | [] => .ok []
  | e :: es => do
      let n ← dict_to_node_j e
      let ns ← parseChildrenList es
      .ok (n :: ns)

end

/-- The outcome of the `try` block in `GameTree.start_new_game`. -/
inductive LoadResult where
  | fileMissing
  | decodeError
  | content (v : JVal)

/-- The tree produced by `GameTree.start_new_game`; in both shapes the
cursor (`current_node`) is set to the root. -/
inductive StartResult where
  | freshTree (rootState : GameState)
  | loadedTree (root : Option JNode)

/-- `GameTree.start_new_game` of `Assignment.py`, abstracted over the file
system: `fileMissing` models `open` raising `FileNotFoundError` and
`decodeError` models `json.load` raising `JSONDecodeError` — exactly the
two exceptions the `except` clause catches, answered with a fresh
single-node tree `GameNode(state=initial_state.clone())`; on decoded
content the reconstruction result (or its escaping exception) is the
tree.  The hash/filename bookkeeping has no bearing on the tree shape. -/
def start_new_game (lr : LoadResult) (initial_state : GameState) :
    Except Unit StartResult :=
  match lr with
  | .fileMissing => .ok (.freshTree initial_state.clone)
  | .decodeError => .ok (.freshTree initial_state.clone)
  | .content v => do
      let root ← dict_to_node_j v
      .ok (.loadedTree root)

end GameTree

end Assignment

namespace Assignment

/-- Induction invariant for the winner/length claim: either the game is
open with at least two numbers, or exactly one number remains and the
winner field holds exactly the value `check_winner` computes for it. -/
def WinnerLenInv (s : GameState) : Prop :=
  (s.winner = none ∧ 2 ≤ s.numbers_list.length) ∨
  (∃ d, s.numbers_list = [d] ∧
    s.winner = some (winnerValue d s.total_points s.starting_player))

end Assignment

namespace Game

/-- Induction invariant for the winner/length claim (`game.py` version,
with its starting-player-free winner rule). -/
def WinnerLenInv (s : GameState) : Prop :=
  (s.winner = none ∧ 2 ≤ s.numbers_list.length) ∨
  (∃ d, s.numbers_list = [d] ∧
    s.winner = some (if (d % 2 : Int) = s.total_points % 2 then
                       if d % 2 = 0 then .player else .ai
                     else .draw))

end Game

/-- A concrete play-history tree of depth 2 (root → child → grandchild,
height 3): `[1,2,3]`, then `merge 0`, then `remove 0`, whose final
snapshot carries a decided winner. -/
def exampleTree : Assignment.GameNode :=
  .mk none ⟨0, [1, 2, 3], none, 1⟩ 0 0
    [.mk (some (.merge, 0)) ⟨1, [3, 3], none, 1⟩ 0 1
      [.mk (some (.remove, 0)) ⟨0, [3], some .draw, 1⟩ 0 2 []]]

/-- Spec-language helper: the winner outcome naming the starting player
(`starting_player = 1` is the human "Player", `2` is the "AI"). -/
def startingPlayerWinner (starting_player : Nat) : Winner :=
  if starting_player = 1 then .player else .ai

/-- Spec-language helper: the winner outcome naming the player who did not
start. -/
def otherPlayerWinner (starting_player : Nat) : Winner :=
  if starting_player = 1 then .ai else .player

/-- C3: for digits `a, b ∈ [1,6]` the two merge computations of the source
(`(a+b) % 6 or 6` in `Assignment.py`, `(a+b) if (a+b) <= 6 else (a+b-6)`
in `game.py`) agree, both equal the reference wraparound formula
`((a+b-1) mod 6) + 1`, and the result lies in `[1,6]`. -/
theorem merge_formulas_equivalent (a b : Nat) (ha1 : 1 ≤ a) (ha6 : a ≤ 6)
    (hb1 : 1 ≤ b) (hb6 : b ≤ 6) :
    mergeDigitAssign a b = mergeDigitGame a b ∧
    mergeDigitAssign a b = (a + b - 1) % 6 + 1 ∧
    1 ≤ mergeDigitAssign a b ∧ mergeDigitAssign a b ≤ 6 := by
  interval_cases a <;> interval_cases b <;> decide

/-- Witness for C3 at `a = b = 6`: the wraparound case `6 + 6 → 6`. -/
theorem merge_formulas_equivalent_witness :
    mergeDigitAssign 6 6 = mergeDigitGame 6 6 ∧
    mergeDigitAssign 6 6 = (6 + 6 - 1) % 6 + 1 ∧
    1 ≤ mergeDigitAssign 6 6 ∧ mergeDigitAssign 6 6 ≤ 6 :=
  merge_formulas_equivalent 6 6 (by decide) (by decide) (by decide) (by decide)

/-- C1: on a length-1 state, `check_winner` yields a decision exactly by
the parity rule — shared parity even: the starting player wins; shared
parity odd: the other player wins; mismatched parity: draw.  `game.py`'s
`check_winner` agrees with `Assignment.py`'s for the default starting
player.  The three concrete cases of the claim are included. -/
theorem check_winner_parity_rule :
    (∀ (d : Nat) (p : Int) (sp : Nat), sp = 1 ∨ sp = 2 →
      ((d % 2 : Int) = p % 2 →
        (Assignment.GameState.check_winner ⟨p, [d], none, sp⟩).winner =
          some (if d % 2 = 0 then startingPlayerWinner sp
                else otherPlayerWinner sp)) ∧
      ((d % 2 : Int) ≠ p % 2 →
        (Assignment.GameState.check_winner ⟨p, [d], none, sp⟩).winner =
          some Winner.draw)) ∧
    (∀ (d : Nat) (p : Int),
      (Game.GameState.check_winner ⟨p, [d], none⟩).winner =
        (Assignment.GameState.check_winner ⟨p, [d], none, 1⟩).winner) ∧
    (Assignment.GameState.check_winner ⟨0, [2], none, 1⟩).winner =
      some Winner.player ∧
    (Assignment.GameState.check_winner ⟨1, [3], none, 1⟩).winner =
      some Winner.ai ∧
    (Assignment.GameState.check_winner ⟨1, [2], none, 1⟩).winner =
      some Winner.draw := by
  refine ⟨?_, ?_, by decide, by decide, by decide⟩
  · intro d p sp hsp
    have hred : (Assignment.GameState.check_winner ⟨p, [d], none, sp⟩).winner
        = some (Assignment.winnerValue d p sp) := rfl
    rw [hred]
    unfold Assignment.winnerValue
    rcases hsp with rfl | rfl <;>
      rcases Nat.mod_two_eq_zero_or_one d with h2 | h2 <;>
        refine ⟨fun h => ?_, fun h => ?_⟩ <;>
          simp [h, h2, startingPlayerWinner, otherPlayerWinner]
  · intro d p
    have hg : (Game.GameState.check_winner ⟨p, [d], none⟩).winner
        = some (if (d % 2 : Int) = p % 2 then
                  if d % 2 = 0 then Winner.player else Winner.ai
                else Winner.draw) := rfl
    have ha : (Assignment.GameState.check_winner ⟨p, [d], none, 1⟩).winner
        = some (Assignment.winnerValue d p 1) := rfl
    rw [hg, ha]
    unfold Assignment.winnerValue
    rcases Nat.mod_two_eq_zero_or_one d with h2 | h2 <;> simp [h2]

/-- Witness for C1 with a non-default starting player: digit 6, score 0,
AI started, shared even parity, so the starting player (the AI) wins. -/
theorem check_winner_parity_rule_witness :
    (Assignment.GameState.check_winner ⟨0, [6], none, 2⟩).winner =
      some Winner.ai := by
  have h := (check_winner_parity_rule.1 6 0 2 (Or.inr rfl)).1 (by decide)
  simpa [startingPlayerWinner] using h

/-- A `flatMap` producing singletons is a `map`. -/
theorem flatMap_singleton_map {α β : Type} (l : List α) (f : α → β) :
    (l.flatMap fun i => [f i]) = l.map f := by
  induction l with
  | nil => rfl
  | cons a l ih => simp [List.flatMap_cons, ih]

/-- C5 counterexample: `game.py`'s `clone` does not preserve the winner
field — cloning a decided state yields an undecided one. -/
theorem clone_counterexample :
    (Game.GameState.clone ⟨0, [2], some Winner.draw⟩).winner ≠
      (⟨0, [2], some Winner.draw⟩ : Game.GameState).winner := by
  decide

/-- C5 (amended): `Assignment.py`'s `clone` reproduces sequence, score,
winner and starting player; `game.py`'s `clone` reproduces sequence and
score but always resets the winner to `None`.  (In the embedding, states
are immutable values, so a move applied to the clone cannot alter the
original; the aliasing aspect of the claim is captured by the clones being
constructed from copies.) -/
theorem clone_fields :
    (∀ s : Assignment.GameState,
      s.clone.total_points = s.total_points ∧
      s.clone.numbers_list = s.numbers_list ∧
      s.clone.winner = s.winner ∧
      s.clone.starting_player = s.starting_player) ∧
    (∀ g : Game.GameState,
      g.clone.total_points = g.total_points ∧
      g.clone.numbers_list = g.numbers_list ∧
      g.clone.winner = none) :=
  ⟨fun _ => ⟨rfl, rfl, rfl, rfl⟩, fun _ => ⟨rfl, rfl, rfl⟩⟩

/-- C6 counterexample: on the winner-unset length-1 state `[2]`,
`game.py`'s `get_possible_moves` returns `[("remove", 0)]`, not the empty
list the claim requires. -/
theorem get_possible_moves_counterexample :
    Game.GameState.get_possible_moves ⟨0, [2], none⟩ ≠ [] := by
  decide

/-- C6 (amended): `Assignment.py`'s generator behaves exactly as claimed
(merges `0..len-2` then removes `0..len-1` when no winner and length > 1;
empty when a winner is set or length = 1).  `game.py` agrees on the first
two clauses but, with no winner and length 1, returns `[("remove", 0)]`
instead of the empty list. -/
theorem get_possible_moves_spec :
    (∀ s : Assignment.GameState,
      (s.winner = none → 1 < s.numbers_list.length →
        s.get_possible_moves =
          (List.range (s.numbers_list.length - 1)).map
              (fun i => (MoveT.merge, i)) ++
            (List.range s.numbers_list.length).map
              (fun i => (MoveT.remove, i))) ∧
      (s.winner ≠ none ∨ s.numbers_list.length = 1 →
        s.get_possible_moves = [])) ∧
    (∀ g : Game.GameState,
      (g.winner = none → 1 < g.numbers_list.length →
        g.get_possible_moves =
          (List.range (g.numbers_list.length - 1)).map
              (fun i => (MoveT.merge, i)) ++
            (List.range g.numbers_list.length).map
              (fun i => (MoveT.remove, i))) ∧
      (g.winner ≠ none → g.get_possible_moves = []) ∧
      (g.winner = none → g.numbers_list.length = 1 →
        g.get_possible_moves = [(MoveT.remove, 0)])) := by
  constructor
  · intro s
    constructor
    · intro hw hlen
      simp [Assignment.GameState.get_possible_moves, hw, hlen,
        flatMap_singleton_map]
    · rintro (hw | hlen)
      · simp [Assignment.GameState.get_possible_moves, hw]
      · rcases hws : s.winner with _ | w
        · simp [Assignment.GameState.get_possible_moves, hws, hlen]
        · simp [Assignment.GameState.get_possible_moves, hws]
  · intro g
    refine ⟨fun hw _ => ?_, fun hw => ?_, fun hw hlen => ?_⟩
    · simp [Game.GameState.get_possible_moves, hw]
    · simp [Game.GameState.get_possible_moves, hw]
    · simp [Game.GameState.get_possible_moves, hw, hlen, List.range_succ]

/-- Witness for C6 on concrete states: a three-digit undecided state, a
decided state, and the undecided singleton for each module. -/
theorem get_possible_moves_spec_witness :
    Assignment.GameState.get_possible_moves ⟨0, [1, 2, 3], none, 1⟩ =
        [(MoveT.merge, 0), (MoveT.merge, 1),
         (MoveT.remove, 0), (MoveT.remove, 1), (MoveT.remove, 2)] ∧
    Assignment.GameState.get_possible_moves ⟨0, [2], none, 1⟩ = [] ∧
    Game.GameState.get_possible_moves ⟨0, [2], none⟩ = [(MoveT.remove, 0)] := by
  refine ⟨?_, ?_, ?_⟩
  · have h := (get_possible_moves_spec.1 ⟨0, [1, 2, 3], none, 1⟩).1 rfl
      (by decide)
    simpa using h
  · have h := (get_possible_moves_spec.1 ⟨0, [2], none, 1⟩).2 (Or.inr rfl)
    simpa using h
  · have h := (get_possible_moves_spec.2 ⟨0, [2], none⟩).2.2 rfl rfl
    simpa using h

theorem pyResolveIndex_eq_some_of_bounds (n : Nat) (i : Int)
    (h1 : -(n : Int) ≤ i) (h2 : i < (n : Int)) :
    ∃ k : Nat, pyResolveIndex n i = some k ∧ k < n := by
  unfold pyResolveIndex
  by_cases h0 : 0 ≤ i
  · exact ⟨i.toNat, by simp [h0, h2], by omega⟩
  · have hn : 0 ≤ i + n := by omega
    exact ⟨(i + n).toNat, by simp [h0, hn], by omega⟩

theorem pyResolveIndex_eq_none_of_lt (n : Nat) (i : Int)
    (h : i < -(n : Int)) : pyResolveIndex n i = none := by
  unfold pyResolveIndex
  have h0 : ¬ 0 ≤ i := by omega
  have hn : ¬ 0 ≤ i + n := by omega
  simp [h0, hn]

theorem pyGetItem_eq_some (l : List Nat) (i : Int)
    (h1 : -(l.length : Int) ≤ i) (h2 : i < (l.length : Int)) :
    ∃ v, pyGetItem l i = some v := by
  obtain ⟨k, hk, hkn⟩ := pyResolveIndex_eq_some_of_bounds l.length i h1 h2
  exact ⟨l.get ⟨k, hkn⟩, by simp [pyGetItem, hk, List.get?_eq_get hkn]⟩

theorem pyGetItem_eq_none (l : List Nat) (i : Int)
    (h : i < -(l.length : Int)) : pyGetItem l i = none := by
  simp [pyGetItem, pyResolveIndex_eq_none_of_lt l.length i h]

theorem pySetItem_eq_some (l : List Nat) (i : Int) (v : Nat)
    (h1 : -(l.length : Int) ≤ i) (h2 : i < (l.length : Int)) :
    ∃ l1, pySetItem l i v = some l1 ∧ l1.length = l.length := by
  obtain ⟨k, hk, _⟩ := pyResolveIndex_eq_some_of_bounds l.length i h1 h2
  exact ⟨l.set k v, by simp [pySetItem, hk], by simp⟩

theorem pyDelItem_eq_some (l : List Nat) (i : Int)
    (h1 : -(l.length : Int) ≤ i) (h2 : i < (l.length : Int)) :
    ∃ l1, pyDelItem l i = some l1 ∧ l1.length = l.length - 1 := by
  obtain ⟨k, hk, hkn⟩ := pyResolveIndex_eq_some_of_bounds l.length i h1 h2
  refine ⟨l.eraseIdx k, by simp [pyDelItem, hk], ?_⟩
  rw [List.length_eraseIdx]
  simp [hkn]

theorem pyDelItem_eq_none (l : List Nat) (i : Int)
    (h : i < -(l.length : Int)) : pyDelItem l i = none := by
  simp [pyDelItem, pyResolveIndex_eq_none_of_lt l.length i h]

namespace Assignment

theorem check_winner_of_len_ne_one (s : GameState)
    (h : s.numbers_list.length ≠ 1) : s.check_winner = s := by
  obtain ⟨p, l, w, sp⟩ := s
  match l with
  | [] => rfl
  | [d] => exact absurd rfl h
  | a :: b :: r => rfl

theorem check_winner_singleton (p : Int) (d : Nat) (w : Option Winner)
    (sp : Nat) :
    GameState.check_winner ⟨p, [d], w, sp⟩ =
      ⟨p, [d], some (winnerValue d p sp), sp⟩ := rfl

theorem check_winner_numbers (s : GameState) :
    s.check_winner.numbers_list = s.numbers_list := by
  obtain ⟨p, l, w, sp⟩ := s
  match l with
  | [] => rfl
  | [d] => rfl
  | a :: b :: r => rfl

theorem check_winner_points (s : GameState) :
    s.check_winner.total_points = s.total_points := by
  obtain ⟨p, l, w, sp⟩ := s
  match l with
  | [] => rfl
  | [d] => rfl
  | a :: b :: r => rfl

theorem make_move_of_winner_set (s : GameState) (i : Int) (t : MoveT)
    (h : s.winner ≠ none) : s.make_move i t = .ok s := by
  unfold GameState.make_move
  rw [if_pos h]

theorem make_move_merge_ok (s : GameState) (i : Int)
    (hw : s.winner = none) (h1 : -(s.numbers_list.length : Int) ≤ i)
    (h2 : i < (s.numbers_list.length : Int) - 1) :
    ∃ l2 : List Nat,
      s.make_move i .merge =
        .ok (GameState.check_winner
          { s with numbers_list := l2,
                   total_points := s.total_points + 1 }) ∧
      l2.length = s.numbers_list.length - 1 := by
  obtain ⟨v1, hv1⟩ := pyGetItem_eq_some s.numbers_list i h1 (by omega)
  obtain ⟨v2, hv2⟩ := pyGetItem_eq_some s.numbers_list (i + 1) (by omega)
    (by omega)
  obtain ⟨l1, hl1, hlen1⟩ :=
    pySetItem_eq_some s.numbers_list i (mergeDigitAssign v1 v2) h1 (by omega)
  obtain ⟨l2, hl2, hlen2⟩ :=
    pyDelItem_eq_some l1 (i + 1) (by omega) (by omega)
  refine ⟨l2, ?_, by omega⟩
  unfold GameState.make_move
  rw [if_neg (by simp [hw]), if_pos ⟨rfl, h2⟩]
  simp only [hv1, hv2, hl1, hl2]

theorem make_move_remove_ok (s : GameState) (i : Int)
    (hw : s.winner = none) (h1 : -(s.numbers_list.length : Int) ≤ i)
    (h2 : i < (s.numbers_list.length : Int)) :
    ∃ l1 : List Nat,
      s.make_move i .remove =
        .ok (GameState.check_winner
          { s with numbers_list := l1,
                   total_points := s.total_points - 1 }) ∧
      l1.length = s.numbers_list.length - 1 := by
  obtain ⟨l1, hl1, hlen1⟩ := pyDelItem_eq_some s.numbers_list i h1 h2
  refine ⟨l1, ?_, hlen1⟩
  unfold GameState.make_move
  rw [if_neg (by simp [hw]), if_neg (by simp), if_pos ⟨rfl, h2⟩]
  simp only [hl1]

theorem make_move_fallthrough (s : GameState) (i : Int) (t : MoveT)
    (hw : s.winner = none)
    (hm : ¬(t = .merge ∧ i < (s.numbers_list.length : Int) - 1))
    (hr : ¬(t = .remove ∧ i < (s.numbers_list.length : Int))) :
    s.make_move i t = .ok s.check_winner := by
  unfold GameState.make_move
  rw [if_neg (by simp [hw]), if_neg hm, if_neg hr]

theorem make_move_merge_err (s : GameState) (i : Int)
    (hw : s.winner = none) (h2 : i < (s.numbers_list.length : Int) - 1)
    (h1 : i < -(s.numbers_list.length : Int)) :
    s.make_move i .merge = .error () := by
  unfold GameState.make_move
  rw [if_neg (by simp [hw]), if_pos ⟨rfl, h2⟩,
    pyGetItem_eq_none s.numbers_list i h1]

theorem make_move_remove_err (s : GameState) (i : Int)
    (hw : s.winner = none) (h2 : i < (s.numbers_list.length : Int))
    (h1 : i < -(s.numbers_list.length : Int)) :
    s.make_move i .remove = .error () := by
  unfold GameState.make_move
  rw [if_neg (by simp [hw]), if_neg (by simp), if_pos ⟨rfl, h2⟩,
    pyDelItem_eq_none s.numbers_list i h1]

end Assignment

namespace Game

theorem check_winner_of_len_ne_one_g (s : GameState)
    (h : s.numbers_list.length ≠ 1) : s.check_winner = s := by
  obtain ⟨p, l, w⟩ := s
  match l with
  | [] => rfl
  | [d] => exact absurd rfl h
  | a :: b :: r => rfl

theorem check_winner_singleton_g (p : Int) (d : Nat) (w : Option Winner) :
    GameState.check_winner ⟨p, [d], w⟩ =
      ⟨p, [d],
        some (if (d % 2 : Int) = p % 2 then
                if d % 2 = 0 then .player else .ai
              else .draw)⟩ := rfl

theorem check_winner_numbers_g (s : GameState) :
    s.check_winner.numbers_list = s.numbers_list := by
  obtain ⟨p, l, w⟩ := s
  match l with
  | [] => rfl
  | [d] => rfl
  | a :: b :: r => rfl

theorem check_winner_points_g (s : GameState) :
    s.check_winner.total_points = s.total_points := by
  obtain ⟨p, l, w⟩ := s
  match l with
  | [] => rfl
  | [d] => rfl
  | a :: b :: r => rfl

theorem make_move_of_winner_set_g (s : GameState) (i : Int) (t : MoveT)
    (h : s.winner ≠ none) : s.make_move i t = .ok s := by
  unfold GameState.make_move
  rw [if_pos h]

theorem make_move_merge_ok_g (s : GameState) (i : Int)
    (hw : s.winner = none) (h1 : -(s.numbers_list.length : Int) ≤ i)
    (h2 : i < (s.numbers_list.length : Int) - 1) :
    ∃ l2 : List Nat,
      s.make_move i .merge =
        .ok (GameState.check_winner
          { s with numbers_list := l2,
                   total_points := s.total_points + 1 }) ∧
      l2.length = s.numbers_list.length - 1 := by
  obtain ⟨v1, hv1⟩ := pyGetItem_eq_some s.numbers_list i h1 (by omega)
  obtain ⟨v2, hv2⟩ := pyGetItem_eq_some s.numbers_list (i + 1) (by omega)
    (by omega)
  obtain ⟨l1, hl1, hlen1⟩ :=
    pySetItem_eq_some s.numbers_list i (mergeDigitGame v1 v2) h1 (by omega)
  obtain ⟨l2, hl2, hlen2⟩ :=
    pyDelItem_eq_some l1 (i + 1) (by omega) (by omega)
  refine ⟨l2, ?_, by omega⟩
  unfold GameState.make_move
  rw [if_neg (by simp [hw]), if_pos ⟨rfl, h2⟩]
  simp only [hv1, hv2, hl1, hl2]

theorem make_move_remove_ok_g (s : GameState) (i : Int)
    (hw : s.winner = none) (h1 : -(s.numbers_list.length : Int) ≤ i)
    (h2 : i < (s.numbers_list.length : Int)) :
    ∃ l1 : List Nat,
      s.make_move i .remove =
        .ok (GameState.check_winner
          { s with numbers_list := l1,
                   total_points := s.total_points - 1 }) ∧
      l1.length = s.numbers_list.length - 1 := by
  obtain ⟨l1, hl1, hlen1⟩ := pyDelItem_eq_some s.numbers_list i h1 h2
  refine ⟨l1, ?_, hlen1⟩
  unfold GameState.make_move
  rw [if_neg (by simp [hw]), if_neg (by simp), if_pos ⟨rfl, h2⟩]
  simp only [hl1]

theorem make_move_fallthrough_g (s : GameState) (i : Int) (t : MoveT)
    (hw : s.winner = none)
    (hm : ¬(t = .merge ∧ i < (s.numbers_list.length : Int) - 1))
    (hr : ¬(t = .remove ∧ i < (s.numbers_list.length : Int))) :
    s.make_move i t = .ok s.check_winner := by
  unfold GameState.make_move
  rw [if_neg (by simp [hw]), if_neg hm, if_neg hr]

theorem make_move_merge_err_g (s : GameState) (i : Int)
    (hw : s.winner = none) (h2 : i < (s.numbers_list.length : Int) - 1)
    (h1 : i < -(s.numbers_list.length : Int)) :
    s.make_move i .merge = .error () := by
  unfold GameState.make_move
  rw [if_neg (by simp [hw]), if_pos ⟨rfl, h2⟩,
    pyGetItem_eq_none s.numbers_list i h1]

theorem make_move_remove_err_g (s : GameState) (i : Int)
    (hw : s.winner = none) (h2 : i < (s.numbers_list.length : Int))
    (h1 : i < -(s.numbers_list.length : Int)) :
    s.make_move i .remove = .error () := by
  unfold GameState.make_move
  rw [if_neg (by simp [hw]), if_neg (by simp), if_pos ⟨rfl, h2⟩,
    pyDelItem_eq_none s.numbers_list i h1]

end Game

namespace Assignment

theorem applyMove_eq_of_ok {s u : GameState} {i : Int} {t : MoveT}
    (h : s.make_move i t = .ok u) : s.applyMove i t = u := by
  unfold GameState.applyMove
  rw [h]

theorem applyMove_eq_of_err {s : GameState} {i : Int} {t : MoveT}
    (h : s.make_move i t = .error ()) : s.applyMove i t = s := by
  unfold GameState.applyMove
  rw [h]

theorem applyMove_winnerLenInv (s : GameState) (i : Int) (t : MoveT)
    (h : WinnerLenInv s) : WinnerLenInv (s.applyMove i t) := by
  rcases h with ⟨hw, hlen⟩ | ⟨d, hd, hw⟩
  · have hne : s.numbers_list.length ≠ 1 := by omega
    rcases t with _ | _
    · by_cases h2 : i < (s.numbers_list.length : Int) - 1
      · by_cases h1 : -(s.numbers_list.length : Int) ≤ i
        · obtain ⟨l2, heq, hl2⟩ := make_move_merge_ok s i hw h1 h2
          rw [applyMove_eq_of_ok heq]
          by_cases hone : l2.length = 1
          · obtain ⟨e, rfl⟩ := List.length_eq_one.mp hone
            exact Or.inr ⟨e, rfl, rfl⟩
          · rw [check_winner_of_len_ne_one _ (by simpa using hone)]
            exact Or.inl ⟨hw, by simp; omega⟩
        · rw [applyMove_eq_of_err (make_move_merge_err s i hw h2 (by omega))]
          exact Or.inl ⟨hw, hlen⟩
      · rw [applyMove_eq_of_ok (make_move_fallthrough s i .merge hw
          (by tauto) (by simp)), check_winner_of_len_ne_one s hne]
        exact Or.inl ⟨hw, hlen⟩
    · by_cases h2 : i < (s.numbers_list.length : Int)
      · by_cases h1 : -(s.numbers_list.length : Int) ≤ i
        · obtain ⟨l1, heq, hl1⟩ := make_move_remove_ok s i hw h1 h2
          rw [applyMove_eq_of_ok heq]
          by_cases hone : l1.length = 1
          · obtain ⟨e, rfl⟩ := List.length_eq_one.mp hone
            exact Or.inr ⟨e, rfl, rfl⟩
          · rw [check_winner_of_len_ne_one _ (by simpa using hone)]
            exact Or.inl ⟨hw, by simp; omega⟩
        · rw [applyMove_eq_of_err (make_move_remove_err s i hw h2 (by omega))]
          exact Or.inl ⟨hw, hlen⟩
      · rw [applyMove_eq_of_ok (make_move_fallthrough s i .remove hw
          (by simp) (by tauto)), check_winner_of_len_ne_one s hne]
        exact Or.inl ⟨hw, hlen⟩
  · have hne : s.winner ≠ none := by rw [hw]; simp
    rw [applyMove_eq_of_ok (make_move_of_winner_set s i t hne)]
    exact Or.inr ⟨d, hd, hw⟩

theorem applyMoves_winnerLenInv (s : GameState) (ms : List (Int × MoveT))
    (h : WinnerLenInv s) : WinnerLenInv (s.applyMoves ms) := by
  induction ms generalizing s with
  | nil => exact h
  | cons m rest ih =>
      exact ih (s.applyMove m.1 m.2) (applyMove_winnerLenInv s m.1 m.2 h)

end Assignment

namespace Game

theorem applyMove_eq_of_ok_g {s u : GameState} {i : Int} {t : MoveT}
    (h : s.make_move i t = .ok u) : s.applyMove i t = u := by
  unfold GameState.applyMove
  rw [h]

theorem applyMove_eq_of_err_g {s : GameState} {i : Int} {t : MoveT}
    (h : s.make_move i t = .error ()) : s.applyMove i t = s := by
  unfold GameState.applyMove
  rw [h]

theorem applyMove_winnerLenInv_g (s : GameState) (i : Int) (t : MoveT)
    (h : WinnerLenInv s) : WinnerLenInv (s.applyMove i t) := by
  rcases h with ⟨hw, hlen⟩ | ⟨d, hd, hw⟩
  · have hne : s.numbers_list.length ≠ 1 := by omega
    rcases t with _ | _
    · by_cases h2 : i < (s.numbers_list.length : Int) - 1
      · by_cases h1 : -(s.numbers_list.length : Int) ≤ i
        · obtain ⟨l2, heq, hl2⟩ := make_move_merge_ok_g s i hw h1 h2
          rw [applyMove_eq_of_ok_g heq]
          by_cases hone : l2.length = 1
          · obtain ⟨e, rfl⟩ := List.length_eq_one.mp hone
            exact Or.inr ⟨e, rfl, rfl⟩
          · rw [check_winner_of_len_ne_one_g _ (by simpa using hone)]
            exact Or.inl ⟨hw, by simp; omega⟩
        · rw [applyMove_eq_of_err_g (make_move_merge_err_g s i hw h2 (by omega))]
          exact Or.inl ⟨hw, hlen⟩
      · rw [applyMove_eq_of_ok_g (make_move_fallthrough_g s i .merge hw
          (by tauto) (by simp)), check_winner_of_len_ne_one_g s hne]
        exact Or.inl ⟨hw, hlen⟩
    · by_cases h2 : i < (s.numbers_list.length : Int)
      · by_cases h1 : -(s.numbers_list.length : Int) ≤ i
        · obtain ⟨l1, heq, hl1⟩ := make_move_remove_ok_g s i hw h1 h2
          rw [applyMove_eq_of_ok_g heq]
          by_cases hone : l1.length = 1
          · obtain ⟨e, rfl⟩ := List.length_eq_one.mp hone
            exact Or.inr ⟨e, rfl, rfl⟩
          · rw [check_winner_of_len_ne_one_g _ (by simpa using hone)]
            exact Or.inl ⟨hw, by simp; omega⟩
        · rw [applyMove_eq_of_err_g (make_move_remove_err_g s i hw h2 (by omega))]
          exact Or.inl ⟨hw, hlen⟩
      · rw [applyMove_eq_of_ok_g (make_move_fallthrough_g s i .remove hw
          (by simp) (by tauto)), check_winner_of_len_ne_one_g s hne]
        exact Or.inl ⟨hw, hlen⟩
  · have hne : s.winner ≠ none := by rw [hw]; simp
    rw [applyMove_eq_of_ok_g (make_move_of_winner_set_g s i t hne)]
    exact Or.inr ⟨d, hd, hw⟩

theorem applyMoves_winnerLenInv_g (s : GameState) (ms : List (Int × MoveT))
    (h : WinnerLenInv s) : WinnerLenInv (s.applyMoves ms) := by
  induction ms generalizing s with
  | nil => exact h
  | cons m rest ih =>
      exact ih (s.applyMove m.1 m.2) (applyMove_winnerLenInv_g s m.1 m.2 h)

end Game

theorem assignment_check_winner_fixed (s : Assignment.GameState) (d : Nat)
    (hd : s.numbers_list = [d])
    (hw : s.winner =
      some (Assignment.winnerValue d s.total_points s.starting_player)) :
    s.check_winner = s := by
  obtain ⟨p, l, w, sp⟩ := s
  dsimp only at hd hw
  subst hd
  subst hw
  rfl

theorem game_check_winner_fixed (s : Game.GameState) (d : Nat)
    (hd : s.numbers_list = [d])
    (hw : s.winner =
      some (if (d % 2 : Int) = s.total_points % 2 then
              if d % 2 = 0 then .player else .ai
            else .draw)) :
    s.check_winner = s := by
  obtain ⟨p, l, w⟩ := s
  dsimp only at hd hw
  subst hd
  subst hw
  rfl

/-- C2: from any winner-unset state of length ≥ 2, every state reachable
by `make_move` calls has the winner set iff exactly one number remains;
once set, every further `make_move` is a no-op returning the state
unchanged, and re-running `check_winner` leaves the state (hence the
winner) unchanged.  Stated for both modules. -/
theorem winner_iff_length_one :
    (∀ (s0 : Assignment.GameState) (ms : List (Int × MoveT)),
      s0.winner = none → 2 ≤ s0.numbers_list.length →
      ((s0.applyMoves ms).winner ≠ none ↔
        (s0.applyMoves ms).numbers_list.length = 1) ∧
      ((s0.applyMoves ms).winner ≠ none →
        (∀ (i : Int) (t : MoveT),
          (s0.applyMoves ms).make_move i t = .ok (s0.applyMoves ms)) ∧
        (s0.applyMoves ms).check_winner = s0.applyMoves ms)) ∧
    (∀ (s0 : Game.GameState) (ms : List (Int × MoveT)),
      s0.winner = none → 2 ≤ s0.numbers_list.length →
      ((s0.applyMoves ms).winner ≠ none ↔
        (s0.applyMoves ms).numbers_list.length = 1) ∧
      ((s0.applyMoves ms).winner ≠ none →
        (∀ (i : Int) (t : MoveT),
          (s0.applyMoves ms).make_move i t = .ok (s0.applyMoves ms)) ∧
        (s0.applyMoves ms).check_winner = s0.applyMoves ms)) := by
  constructor
  · intro s0 ms hw0 hlen0
    rcases Assignment.applyMoves_winnerLenInv s0 ms (Or.inl ⟨hw0, hlen0⟩) with
      ⟨hw, hlen⟩ | ⟨d, hd, hw⟩
    · exact ⟨⟨fun h => absurd hw h, fun h => by omega⟩,
        fun h => absurd hw h⟩
    · refine ⟨⟨fun _ => by rw [hd]; rfl, fun _ => by rw [hw]; simp⟩,
        fun _ => ⟨?_, ?_⟩⟩
      · intro i t
        exact Assignment.make_move_of_winner_set _ i t (by rw [hw]; simp)
      · exact assignment_check_winner_fixed _ d hd hw
  · intro s0 ms hw0 hlen0
    rcases Game.applyMoves_winnerLenInv_g s0 ms (Or.inl ⟨hw0, hlen0⟩) with
      ⟨hw, hlen⟩ | ⟨d, hd, hw⟩
    · exact ⟨⟨fun h => absurd hw h, fun h => by omega⟩,
        fun h => absurd hw h⟩
    · refine ⟨⟨fun _ => by rw [hd]; rfl, fun _ => by rw [hw]; simp⟩,
        fun _ => ⟨?_, ?_⟩⟩
      · intro i t
        exact Game.make_move_of_winner_set_g _ i t (by rw [hw]; simp)
      · exact game_check_winner_fixed _ d hd hw

/-- Witness for C2: the length-2 state `[1,2]` after one merge. -/
theorem winner_iff_length_one_witness :
    ((Assignment.GameState.applyMoves ⟨0, [1, 2], none, 1⟩
        [((0 : Int), MoveT.merge)]).winner ≠ none ↔
      (Assignment.GameState.applyMoves ⟨0, [1, 2], none, 1⟩
        [((0 : Int), MoveT.merge)]).numbers_list.length = 1) ∧
    (Game.GameState.applyMoves ⟨0, [1, 2], none⟩
        [((0 : Int), MoveT.merge)]).check_winner =
      Game.GameState.applyMoves ⟨0, [1, 2], none⟩ [((0 : Int), MoveT.merge)] := by
  constructor
  · exact (winner_iff_length_one.1 ⟨0, [1, 2], none, 1⟩
      [((0 : Int), MoveT.merge)] rfl (by decide)).1
  · exact ((winner_iff_length_one.2 ⟨0, [1, 2], none⟩
      [((0 : Int), MoveT.merge)] rfl (by decide)).2 (by decide)).2

/-- C4 counterexample: two invalid `make_move` calls that are not safe
no-ops.  With index `-3` on the two-element state `[1,2]` the merge guard
`-3 < len - 1` passes and the list read raises `IndexError` (the claim
demands a no-op for every integer index); and on the winner-unset
length-1 state `[2]` the out-of-range merge index `5` falls through to
`check_winner`, which sets the winner — the "invalid" call changes the
state. -/
theorem make_move_counterexample :
    Assignment.GameState.make_move ⟨0, [1, 2], none, 1⟩ (-3) .merge =
      .error () ∧
    Assignment.GameState.make_move ⟨0, [2], none, 1⟩ 5 .merge =
      .ok ⟨0, [2], some Winner.player, 1⟩ := by
  exact ⟨rfl, rfl⟩

/-- C4 (amended): for non-negative indices, and on states that either
already have a winner or have length ≠ 1, both modules' `make_move`
behaves as claimed: a valid merge/remove shrinks the sequence by exactly
one and moves the score by `+1`/`−1`; an invalid call (guard fails, or
winner already set) returns the state unchanged.  (Negative indices are
excluded: indices in `[-len, -1]` mutate via Python's wraparound indexing
and indices below `-len` raise `IndexError`; the winner-unset length-1
states are excluded because an out-of-range index there still runs
`check_winner`, which sets the winner.) -/
theorem make_move_length_score :
    (∀ (s : Assignment.GameState) (i : Nat) (t : MoveT),
      (s.winner ≠ none → s.make_move i t = .ok s) ∧
      (s.winner = none →
        ((t = .merge ∧ (i : Int) < (s.numbers_list.length : Int) - 1) ∨
         (t = .remove ∧ (i : Int) < (s.numbers_list.length : Int)) →
          ∃ s', s.make_move i t = .ok s' ∧
            s'.numbers_list.length = s.numbers_list.length - 1 ∧
            s'.total_points =
              s.total_points + (if t = .merge then 1 else -1)) ∧
        (¬((t = .merge ∧ (i : Int) < (s.numbers_list.length : Int) - 1) ∨
           (t = .remove ∧ (i : Int) < (s.numbers_list.length : Int))) →
          s.numbers_list.length ≠ 1 → s.make_move i t = .ok s))) ∧
    (∀ (s : Game.GameState) (i : Nat) (t : MoveT),
      (s.winner ≠ none → s.make_move i t = .ok s) ∧
      (s.winner = none →
        ((t = .merge ∧ (i : Int) < (s.numbers_list.length : Int) - 1) ∨
         (t = .remove ∧ (i : Int) < (s.numbers_list.length : Int)) →
          ∃ s', s.make_move i t = .ok s' ∧
            s'.numbers_list.length = s.numbers_list.length - 1 ∧
            s'.total_points =
              s.total_points + (if t = .merge then 1 else -1)) ∧
        (¬((t = .merge ∧ (i : Int) < (s.numbers_list.length : Int) - 1) ∨
           (t = .remove ∧ (i : Int) < (s.numbers_list.length : Int))) →
          s.numbers_list.length ≠ 1 → s.make_move i t = .ok s))) := by
  constructor
  · intro s i t
    refine ⟨fun hw => Assignment.make_move_of_winner_set s i t hw,
      fun hw => ⟨?_, ?_⟩⟩
    · rintro (⟨rfl, h2⟩ | ⟨rfl, h2⟩)
      · obtain ⟨l2, heq, hl2⟩ :=
          Assignment.make_move_merge_ok s i hw (by omega) h2
        refine ⟨_, heq, ?_, ?_⟩
        · rw [Assignment.check_winner_numbers]
          simpa using hl2
        · rw [Assignment.check_winner_points]
          simp
      · obtain ⟨l1, heq, hl1⟩ :=
          Assignment.make_move_remove_ok s i hw (by omega) h2
        refine ⟨_, heq, ?_, ?_⟩
        · rw [Assignment.check_winner_numbers]
          simpa using hl1
        · rw [Assignment.check_winner_points]
          simp
          omega
    · intro hinval hone
      rw [Assignment.make_move_fallthrough s i t hw
        (fun h => hinval (Or.inl h)) (fun h => hinval (Or.inr h)),
        Assignment.check_winner_of_len_ne_one s hone]
  · intro s i t
    refine ⟨fun hw => Game.make_move_of_winner_set_g s i t hw,
      fun hw => ⟨?_, ?_⟩⟩
    · rintro (⟨rfl, h2⟩ | ⟨rfl, h2⟩)
      · obtain ⟨l2, heq, hl2⟩ :=
          Game.make_move_merge_ok_g s i hw (by omega) h2
        refine ⟨_, heq, ?_, ?_⟩
        · rw [Game.check_winner_numbers_g]
          simpa using hl2
        · rw [Game.check_winner_points_g]
          simp
      · obtain ⟨l1, heq, hl1⟩ :=
          Game.make_move_remove_ok_g s i hw (by omega) h2
        refine ⟨_, heq, ?_, ?_⟩
        · rw [Game.check_winner_numbers_g]
          simpa using hl1
        · rw [Game.check_winner_points_g]
          simp
          omega
    · intro hinval hone
      rw [Game.make_move_fallthrough_g s i t hw
        (fun h => hinval (Or.inl h)) (fun h => hinval (Or.inr h)),
        Game.check_winner_of_len_ne_one_g s hone]

/-- Witness for C4: a valid merge on `[1,2,3]` (length 3 → 2, score
0 → 1) and an out-of-range remove on the same state (no-op). -/
theorem make_move_length_score_witness :
    (∃ s', Assignment.GameState.make_move ⟨0, [1, 2, 3], none, 1⟩ 0 .merge =
        .ok s' ∧ s'.numbers_list.length = 2 ∧ s'.total_points = 1) ∧
    Assignment.GameState.make_move ⟨0, [1, 2, 3], none, 1⟩ 7 .remove =
      .ok ⟨0, [1, 2, 3], none, 1⟩ := by
  constructor
  · obtain ⟨s', h1, h2, h3⟩ :=
      ((make_move_length_score.1 ⟨0, [1, 2, 3], none, 1⟩ 0 .merge).2 rfl).1
        (Or.inl ⟨rfl, by decide⟩)
    exact ⟨s', h1, by simpa using h2, by simpa using h3⟩
  · exact ((make_move_length_score.1 ⟨0, [1, 2, 3], none, 1⟩ 7 .remove).2
      rfl).2 (by decide) (by decide)

theorem assignment_reaches_parity (s0 s : Assignment.GameState)
    (h : Assignment.Reaches s0 s) :
    s.total_points % 2 =
      (s0.total_points + (s0.numbers_list.length : Int) -
        (s.numbers_list.length : Int)) % 2 := by
  induction h with
  | refl => omega
  | @step t u i mt hr hs hm ih =>
      obtain ⟨hw, h1, h2⟩ := hs
      have hlen : 1 ≤ t.numbers_list.length := by
        rcases mt with _ | _ <;> simp at h2 <;> omega
      rcases mt with _ | _
      · have h2' : i < (t.numbers_list.length : Int) - 1 := by simpa using h2
        obtain ⟨l2, heq2, hl2⟩ := Assignment.make_move_merge_ok t i hw h1 h2'
        rw [hm] at heq2
        injection heq2 with hu
        have hp : u.total_points = t.total_points + 1 := by
          rw [hu, Assignment.check_winner_points]
        have hl : u.numbers_list.length = t.numbers_list.length - 1 := by
          rw [hu, Assignment.check_winner_numbers]
          simpa using hl2
        rw [hp, hl]
        omega
      · have h2' : i < (t.numbers_list.length : Int) := by simpa using h2
        obtain ⟨l1, heq2, hl1⟩ := Assignment.make_move_remove_ok t i hw h1 h2'
        rw [hm] at heq2
        injection heq2 with hu
        have hp : u.total_points = t.total_points - 1 := by
          rw [hu, Assignment.check_winner_points]
        have hl : u.numbers_list.length = t.numbers_list.length - 1 := by
          rw [hu, Assignment.check_winner_numbers]
          simpa using hl1
        rw [hp, hl]
        omega

theorem game_reaches_parity (s0 s : Game.GameState)
    (h : Game.Reaches s0 s) :
    s.total_points % 2 =
      (s0.total_points + (s0.numbers_list.length : Int) -
        (s.numbers_list.length : Int)) % 2 := by
  induction h with
  | refl => omega
  | @step t u i mt hr hs hm ih =>
      obtain ⟨hw, h1, h2⟩ := hs
      have hlen : 1 ≤ t.numbers_list.length := by
        rcases mt with _ | _ <;> simp at h2 <;> omega
      rcases mt with _ | _
      · have h2' : i < (t.numbers_list.length : Int) - 1 := by simpa using h2
        obtain ⟨l2, heq2, hl2⟩ := Game.make_move_merge_ok_g t i hw h1 h2'
        rw [hm] at heq2
        injection heq2 with hu
        have hp : u.total_points = t.total_points + 1 := by
          rw [hu, Game.check_winner_points_g]
        have hl : u.numbers_list.length = t.numbers_list.length - 1 := by
          rw [hu, Game.check_winner_numbers_g]
          simpa using hl2
        rw [hp, hl]
        omega
      · have h2' : i < (t.numbers_list.length : Int) := by simpa using h2
        obtain ⟨l1, heq2, hl1⟩ := Game.make_move_remove_ok_g t i hw h1 h2'
        rw [hm] at heq2
        injection heq2 with hu
        have hp : u.total_points = t.total_points - 1 := by
          rw [hu, Game.check_winner_points_g]
        have hl : u.numbers_list.length = t.numbers_list.length - 1 := by
          rw [hu, Game.check_winner_numbers_g]
          simpa using hl1
        rw [hp, hl]
        omega

/-- C10: along any sequence of successful `make_move` calls from a
score-0 state of length `n0`, the score stays congruent to
`n0 − current length` modulo 2; in particular a state reached at length 1
has score parity equal to that of `n0 − 1`.  Stated for both modules. -/
theorem score_parity :
    (∀ (s0 s : Assignment.GameState), Assignment.Reaches s0 s →
      s0.total_points = 0 →
      s.total_points % 2 =
        ((s0.numbers_list.length : Int) -
          (s.numbers_list.length : Int)) % 2 ∧
      (s.numbers_list.length = 1 →
        s.total_points % 2 = ((s0.numbers_list.length : Int) - 1) % 2)) ∧
    (∀ (s0 s : Game.GameState), Game.Reaches s0 s →
      s0.total_points = 0 →
      s.total_points % 2 =
        ((s0.numbers_list.length : Int) -
          (s.numbers_list.length : Int)) % 2 ∧
      (s.numbers_list.length = 1 →
        s.total_points % 2 = ((s0.numbers_list.length : Int) - 1) % 2)) := by
  constructor
  · intro s0 s h h0
    have := assignment_reaches_parity s0 s h
    rw [h0] at this
    constructor
    · simpa using this
    · intro h1
      rw [h1] at this
      simpa using this
  · intro s0 s h h0
    have := game_reaches_parity s0 s h
    rw [h0] at this
    constructor
    · simpa using this
    · intro h1
      rw [h1] at this
      simpa using this

/-- Witness for C10: `[1,2]` with score 0, one successful merge reaching
`[3]` with score 1; parities agree with `n0 − 1 = 1`. -/
theorem score_parity_witness :
    (Assignment.GameState.mk 1 [3] (some Winner.ai) 1).total_points % 2 =
      (((Assignment.GameState.mk 0 [1, 2] none 1).numbers_list.length : Int)
        - 1) % 2 := by
  have hr : Assignment.Reaches ⟨0, [1, 2], none, 1⟩ ⟨1, [3], some .ai, 1⟩ :=
    .step 0 .merge (.refl _) (by decide) rfl
  exact (score_parity.1 _ _ hr rfl).2 rfl

mutual

theorem roundtrip_node (n : Assignment.GameNode) :
    Assignment.GameTree.dict_to_node (Assignment.GameTree.node_to_dict n) =
      Assignment.GameTree.resetSnapshots n := by
  match n with
  | .mk move state heuristic depth children =>
      show Assignment.GameNode.mk move
          ⟨state.total_points, state.numbers_list, none, 1⟩ heuristic depth
          (Assignment.GameTree.dicts_to_nodes
            (Assignment.GameTree.nodes_to_dicts children)) =
        Assignment.GameNode.mk move
          { state with winner := none, starting_player := 1 } heuristic depth
          (Assignment.GameTree.resetSnapshotsList children)
      rw [roundtrip_list children]

theorem roundtrip_list (l : List Assignment.GameNode) :
    Assignment.GameTree.dicts_to_nodes
        (Assignment.GameTree.nodes_to_dicts l) =
      Assignment.GameTree.resetSnapshotsList l := by
  match l with
  | [] => rfl
  | n :: ns =>
      show Assignment.GameTree.dict_to_node (Assignment.GameTree.node_to_dict n)
          :: Assignment.GameTree.dicts_to_nodes
            (Assignment.GameTree.nodes_to_dicts ns) =
        Assignment.GameTree.resetSnapshots n
          :: Assignment.GameTree.resetSnapshotsList ns
      rw [roundtrip_node n, roundtrip_list ns]

end

/-- C8 counterexample: persisting and reloading the depth-2 tree
`exampleTree` does not reproduce it — the grandchild snapshot's winner,
stored by `_node_to_dict`, is not restored by `_dict_to_node` (which
rebuilds each snapshot as `GameState(points, numbers)`). -/
theorem save_load_roundtrip_counterexample :
    Assignment.GameTree.dict_to_node
        (Assignment.GameTree.node_to_dict exampleTree) ≠ exampleTree ∧
    3 ≤ exampleTree.height := by
  constructor
  · rw [roundtrip_node]
    intro h
    simp only [exampleTree, Assignment.GameTree.resetSnapshots,
      Assignment.GameTree.resetSnapshotsList] at h
    simp at h
  · decide

/-- C8 (amended): reloading a persisted tree reproduces the move, the
snapshot sequence and score, the heuristic, the depth and the child order
at every node, but clears every snapshot's winner (and resets the
starting-player marker to the constructor default): the round trip equals
`resetSnapshots`, not the identity. -/
theorem save_load_roundtrip (n : Assignment.GameNode) :
    Assignment.GameTree.dict_to_node (Assignment.GameTree.node_to_dict n) =
      Assignment.GameTree.resetSnapshots n :=
  roundtrip_node n

/-- C9 counterexample: the file content `{}` is valid JSON that cannot be
reconstructed into a tree, yet `start_new_game` neither falls back to a
fresh single-node tree (it stores `root = None`) nor raises; and the valid
JSON content `{"a": 1}` makes `_dict_to_node` raise an uncaught `KeyError`
that propagates to the caller. -/
theorem start_new_game_counterexample :
    Assignment.GameTree.start_new_game
        (.content (JVal.obj [])) ⟨0, [1, 2], none, 1⟩ =
      .ok (.loadedTree none) ∧
    (Except.ok (Assignment.GameTree.StartResult.loadedTree none) :
        Except Unit Assignment.GameTree.StartResult) ≠
      .ok (.freshTree (Assignment.GameState.clone ⟨0, [1, 2], none, 1⟩)) ∧
    Assignment.GameTree.start_new_game
        (.content (JVal.obj [("a", JVal.num 1)])) ⟨0, [1, 2], none, 1⟩ =
      .error () := by
  refine ⟨rfl, ?_, rfl⟩
  simp

/-- C9 (amended): the load recovery covers exactly the two caught
exceptions: a missing file (`FileNotFoundError`) or undecodable text
(`JSONDecodeError`) yields a fresh single-node tree rooted at a clone of
the initial state, with the cursor at the root, and no error escapes.
Decoded-but-malformed content is not recovered: falsy JSON values yield
an empty tree (`root = None`) and truthy non-conforming values raise an
uncaught error (see the counterexample). -/
theorem start_new_game_fallback (initial_state : Assignment.GameState) :
    Assignment.GameTree.start_new_game .fileMissing initial_state =
      .ok (.freshTree initial_state.clone) ∧
    Assignment.GameTree.start_new_game .decodeError initial_state =
      .ok (.freshTree initial_state.clone) :=
  ⟨rfl, rfl⟩

theorem xq_clamp_of_le (a b x : XQ) (h : b ≤ a) : max a (min b x) = a :=
  max_eq_left (le_trans (min_le_left b x) h)

theorem xq_min_top (x : XQ) : min ⊤ x = x := min_eq_right le_top

theorem xq_max_bot (x : XQ) : max ⊥ x = x := max_eq_right bot_le

theorem xq_if_lt_max (c v : XQ) : (if c < v then v else c) = max c v := by
  rcases le_or_lt v c with h | h
  · rw [if_neg (not_lt.mpr h), max_eq_left h]
  · rw [if_pos h, max_eq_right h.le]

theorem xq_if_gt_min (c v : XQ) : (if v < c then v else c) = min c v := by
  rcases le_or_lt c v with h | h
  · rw [if_neg (not_lt.mpr h), min_eq_left h]
  · rw [if_pos h, min_eq_right h.le]

theorem xq_clamp_max_start (a b c v : XQ) (hab : a < b) (hc : c ≤ a) :
    max a (min b (max c v)) = max a (min b v) := by
  rcases le_total c v with h | h
  · rw [max_eq_right h]
  · rw [max_eq_left h]
    have hv : v ≤ a := le_trans h hc
    rw [min_eq_right (le_of_lt (lt_of_le_of_lt hc hab)),
      min_eq_right (le_of_lt (lt_of_le_of_lt hv hab)),
      max_eq_left hc, max_eq_left hv]

theorem xq_clamp_min_start (a b c v : XQ) (hc : b ≤ c) :
    max a (min b (min c v)) = max a (min b v) := by
  rcases le_total v c with h | h
  · rw [min_eq_right h]
  · rw [min_eq_left h]
    have hv : b ≤ v := le_trans hc h
    rw [min_eq_left hc, min_eq_left hv]

section SearchLemmas

variable {S M : Type} (term : S → Bool) (eval : S → ℚ) (moves : S → List M)
  (child : S → M → S)

theorem plainMaxLoop_fst_ge (d : Nat) (ms : List M) :
    ∀ (s : S) (cur : XQ) (b : Option M),
      cur ≤ (plainMaxLoop term eval moves child s d ms cur b).1 := by
  induction ms with
  | nil =>
      intro s cur b
      rw [plainMaxLoop]
  | cons m rest ih =>
      intro s cur b
      rw [plainMaxLoop]
      by_cases h : cur < (plainSearch term eval moves child (child s m) d false).1
      · rw [if_pos h]
        exact le_trans h.le (ih s _ _)
      · rw [if_neg h]
        exact ih s _ _

theorem plainMinLoop_fst_le (d : Nat) (ms : List M) :
    ∀ (s : S) (cur : XQ) (b : Option M),
      (plainMinLoop term eval moves child s d ms cur b).1 ≤ cur := by
  induction ms with
  | nil =>
      intro s cur b
      rw [plainMinLoop]
  | cons m rest ih =>
      intro s cur b
      rw [plainMinLoop]
      by_cases h : (plainSearch term eval moves child (child s m) d true).1 < cur
      · rw [if_pos h]
        exact le_trans (ih s _ _) h.le
      · rw [if_neg h]
        exact ih s _ _

theorem plainMaxLoop_fst_start (d : Nat) (ms : List M) :
    ∀ (s : S) (cur : XQ) (b : Option M),
      (plainMaxLoop term eval moves child s d ms cur b).1 =
        max cur (plainMaxLoop term eval moves child s d ms ⊥ none).1 := by
  induction ms with
  | nil =>
      intro s cur b
      rw [plainMaxLoop, plainMaxLoop]
      simp
  | cons m rest ih =>
      intro s cur b
      rw [plainMaxLoop, plainMaxLoop]
      rcases eq_or_ne (plainSearch term eval moves child (child s m) d false).1
        ⊥ with hv | hv
      · rw [hv, if_neg (not_lt_bot), if_neg (not_lt_bot), ih s cur b]
      · rw [if_pos (Ne.bot_lt hv)]
        by_cases h : cur <
          (plainSearch term eval moves child (child s m) d false).1
        · rw [if_pos h,
            ih s (plainSearch term eval moves child (child s m) d false).1
              (some m),
            ← max_assoc, max_eq_right h.le]
        · rw [if_neg h, ih s cur b,
            ih s (plainSearch term eval moves child (child s m) d false).1
              (some m),
            ← max_assoc, max_eq_left (not_lt.mp h)]

theorem plainMinLoop_fst_start (d : Nat) (ms : List M) :
    ∀ (s : S) (cur : XQ) (b : Option M),
      (plainMinLoop term eval moves child s d ms cur b).1 =
        min cur (plainMinLoop term eval moves child s d ms ⊤ none).1 := by
  induction ms with
  | nil =>
      intro s cur b
      rw [plainMinLoop, plainMinLoop]
      simp
  | cons m rest ih =>
      intro s cur b
      rw [plainMinLoop, plainMinLoop]
      rcases eq_or_ne (plainSearch term eval moves child (child s m) d true).1
        ⊤ with hv | hv
      · rw [hv, if_neg (not_top_lt), if_neg (not_top_lt), ih s cur b]
      · rw [if_pos (Ne.lt_top hv)]
        by_cases h : (plainSearch term eval moves child (child s m) d true).1
          < cur
        · rw [if_pos h,
            ih s (plainSearch term eval moves child (child s m) d true).1
              (some m),
            ← min_assoc, min_eq_right h.le]
        · rw [if_neg h, ih s cur b,
            ih s (plainSearch term eval moves child (child s m) d true).1
              (some m),
            ← min_assoc, min_eq_left (not_lt.mp h)]

theorem plainMaxLoop_top (d : Nat) (ms : List M) :
    ∀ (s : S) (b : Option M),
      plainMaxLoop term eval moves child s d ms ⊤ b = (⊤, b) := by
  induction ms with
  | nil =>
      intro s b
      rw [plainMaxLoop]
  | cons m rest ih =>
      intro s b
      rw [plainMaxLoop, if_neg (not_top_lt)]
      exact ih s b

theorem plainMinLoop_bot (d : Nat) (ms : List M) :
    ∀ (s : S) (b : Option M),
      plainMinLoop term eval moves child s d ms ⊥ b = (⊥, b) := by
  induction ms with
  | nil =>
      intro s b
      rw [plainMinLoop]
  | cons m rest ih =>
      intro s b
      rw [plainMinLoop, if_neg (not_lt_bot)]
      exact ih s b

theorem abMaxLoop_fst_ge (d : Nat) (ms : List M) :
    ∀ (s : S) (a b cur : XQ) (bm : Option M),
      cur ≤ (abMaxLoop term eval moves child s d ms a b cur bm).1 := by
  induction ms with
  | nil =>
      intro s a b cur bm
      rw [abMaxLoop]
  | cons m rest ih =>
      intro s a b cur bm
      rw [abMaxLoop]
      have hc : cur ≤ if cur <
          (abSearch term eval moves child (child s m) d a b false).1 then
          (abSearch term eval moves child (child s m) d a b false).1
          else cur := by
        rw [xq_if_lt_max]
        exact le_max_left cur _
      by_cases h : b ≤
        max a (abSearch term eval moves child (child s m) d a b false).1
      · rw [if_pos h]
        exact hc
      · rw [if_neg h]
        exact le_trans hc (ih s _ _ _ _)

theorem abMinLoop_fst_le (d : Nat) (ms : List M) :
    ∀ (s : S) (a b cur : XQ) (bm : Option M),
      (abMinLoop term eval moves child s d ms a b cur bm).1 ≤ cur := by
  induction ms with
  | nil =>
      intro s a b cur bm
      rw [abMinLoop]
  | cons m rest ih =>
      intro s a b cur bm
      rw [abMinLoop]
      have hc : (if (abSearch term eval moves child (child s m) d a b true).1 <
          cur then (abSearch term eval moves child (child s m) d a b true).1
          else cur) ≤ cur := by
        rw [xq_if_gt_min]
        exact min_le_left cur _
      by_cases h :
        min b (abSearch term eval moves child (child s m) d a b true).1 ≤ a
      · rw [if_pos h]
        exact hc
      · rw [if_neg h]
        exact le_trans (ih s _ _ _ _) hc

end SearchLemmas

theorem xq_le_of_clamp_eq (a b w : XQ) (hab : a < b)
    (h : max a (min b w) = a) : w ≤ a := by
  have h2 : min b w ≤ a := by
    by_contra hgt
    push_neg at hgt
    rw [max_eq_right hgt.le] at h
    rw [h] at hgt
    exact lt_irrefl a hgt
  rcases min_choice b w with hm | hm
  · rw [hm] at h2
    exact absurd h2 (not_le.mpr hab)
  · rw [hm] at h2
    exact h2

theorem xq_ge_of_clamp_eq (a b w : XQ) (hab : a < b)
    (h : max a (min b w) = b) : b ≤ w := by
  rcases max_choice a (min b w) with hm | hm
  · rw [hm] at h
    exact absurd h (ne_of_lt hab)
  · rw [hm] at h
    exact min_eq_left_iff.mp h

theorem xq_eq_of_clamp_eq (a b w r : XQ) (har : a < r) (hrb : r < b)
    (h : max a (min b w) = r) : w = r := by
  rcases max_choice a (min b w) with hm | hm
  · rw [hm] at h
    rw [h] at har
    exact absurd har (lt_irrefl r)
  · rw [hm] at h
    rcases min_choice b w with hm2 | hm2
    · rw [hm2] at h
      rw [h] at hrb
      exact absurd hrb (lt_irrefl r)
    · rw [hm2] at h
      exact h

theorem xq_clamp_widen (a r b x : XQ) (har : a ≤ r) (hrb : r ≤ b)
    (hx : r ≤ x) : max a (min b x) = max r (min b x) := by
  have h1 : r ≤ min b x := le_min hrb hx
  rw [max_eq_right (le_trans har h1), max_eq_right h1]

section SearchClamp

variable {S M : Type} (term : S → Bool) (eval : S → ℚ) (moves : S → List M)
  (child : S → M → S)

theorem loopMaxClamp (d : Nat)
    (HP : ∀ (s : S) (a b : XQ) (mx : Bool),
      max a (min b (abSearch term eval moves child s d a b mx).1) =
        max a (min b (plainSearch term eval moves child s d mx).1)) :
    ∀ (ms : List M) (s : S) (a b cur : XQ) (bm bp : Option M), cur ≤ a →
      max a (min b (abMaxLoop term eval moves child s d ms a b cur bm).1) =
        max a (min b (plainMaxLoop term eval moves child s d ms cur bp).1) := by
  intro ms
  induction ms with
  | nil =>
      intro s a b cur bm bp hcur
      rw [abMaxLoop, plainMaxLoop]
  | cons m rest ih =>
      intro s a b cur bm bp hcur
      by_cases hba : b ≤ a
      · rw [xq_clamp_of_le a b _ hba, xq_clamp_of_le a b _ hba]
      · have hab : a < b := lt_of_not_ge hba
        rw [abMaxLoop, plainMaxLoop]
        set r := (abSearch term eval moves child (child s m) d a b false).1
          with hrdef
        set w := (plainSearch term eval moves child (child s m) d false).1
          with hwdef
        have HPm : max a (min b r) = max a (min b w) := HP (child s m) a b false
        rcases le_or_lt r a with hra | hra
        · have hnb : ¬ b ≤ max a r := by
            rw [max_eq_left hra]
            exact hba
          rw [if_neg hnb, max_eq_left hra, xq_if_lt_max cur r]
          have hwa : w ≤ a := by
            apply xq_le_of_clamp_eq a b w hab
            rw [← HPm, min_eq_right (le_of_lt (lt_of_le_of_lt hra hab)),
              max_eq_left hra]
          rw [ih s a b (max cur r) (if cur < r then some m else bm) none
            (max_le hcur hra)]
          rw [plainMaxLoop_fst_start term eval moves child d rest s
            (max cur r) none]
          by_cases hcw : cur < w
          · rw [if_pos hcw, plainMaxLoop_fst_start term eval moves child d
              rest s w (some m)]
            rw [xq_clamp_max_start a b (max cur r) _ hab (max_le hcur hra),
              xq_clamp_max_start a b w _ hab hwa]
          · rw [if_neg hcw, plainMaxLoop_fst_start term eval moves child d
              rest s cur bp]
            rw [xq_clamp_max_start a b (max cur r) _ hab (max_le hcur hra),
              xq_clamp_max_start a b cur _ hab hcur]
        · have hmaxr : max a r = r := max_eq_right hra.le
          rcases le_or_lt b r with hbr | hbr
          · have hbreak : b ≤ max a r := by
              rw [hmaxr]
              exact hbr
            rw [if_pos hbreak]
            have hcr : cur < r := lt_of_le_of_lt hcur hra
            have hbw : b ≤ w := by
              apply xq_ge_of_clamp_eq a b w hab
              rw [← HPm, min_eq_left hbr, max_eq_right hab.le]
            have hcw : cur < w := lt_of_le_of_lt hcur (lt_of_lt_of_le hab hbw)
            rw [if_pos hcw]
            have hge := plainMaxLoop_fst_ge term eval moves child d rest s w
              (some m)
            have hL : (((if cur < r then r else cur) : XQ),
                (if cur < r then some m else bm)).1 = r := by
              rw [if_pos hcr]
            rw [hL, min_eq_left hbr, max_eq_right hab.le,
              min_eq_left (le_trans hbw hge), max_eq_right hab.le]
          · have hnb : ¬ b ≤ max a r := by
              rw [hmaxr]
              exact not_le.mpr hbr
            rw [if_neg hnb, hmaxr]
            have hw : w = r := by
              apply xq_eq_of_clamp_eq a b w r hra hbr
              rw [← HPm, min_eq_right hbr.le, hmaxr]
            have hcr : cur < r := lt_of_le_of_lt hcur hra
            rw [hw, if_pos hcr, if_pos hcr, if_pos hcr]
            have hA := abMaxLoop_fst_ge term eval moves child d rest s r b r
              (some m)
            have hP := plainMaxLoop_fst_ge term eval moves child d rest s r
              (some m)
            rw [xq_clamp_widen a r b _ hra.le hbr.le hA,
              xq_clamp_widen a r b _ hra.le hbr.le hP]
            exact ih s r b r (some m) (some m) (le_refl r)

end SearchClamp

theorem xq_clamp_narrow (a r b x : XQ) (hrb : r < b) (hx : x ≤ r) :
    max a (min b x) = max a (min r x) := by
  rw [min_eq_right (le_of_lt (lt_of_le_of_lt hx hrb)), min_eq_right hx]

section SearchClampMin

variable {S M : Type} (term : S → Bool) (eval : S → ℚ) (moves : S → List M)
  (child : S → M → S)

theorem loopMinClamp (d : Nat)
    (HP : ∀ (s : S) (a b : XQ) (mx : Bool),
      max a (min b (abSearch term eval moves child s d a b mx).1) =
        max a (min b (plainSearch term eval moves child s d mx).1)) :
    ∀ (ms : List M) (s : S) (a b cur : XQ) (bm bp : Option M), b ≤ cur →
      max a (min b (abMinLoop term eval moves child s d ms a b cur bm).1) =
        max a (min b (plainMinLoop term eval moves child s d ms cur bp).1) := by
  intro ms
  induction ms with
  | nil =>
      intro s a b cur bm bp hcur
      rw [abMinLoop, plainMinLoop]
  | cons m rest ih =>
      intro s a b cur bm bp hcur
      by_cases hba : b ≤ a
      · rw [xq_clamp_of_le a b _ hba, xq_clamp_of_le a b _ hba]
      · have hab : a < b := lt_of_not_ge hba
        rw [abMinLoop, plainMinLoop]
        set r := (abSearch term eval moves child (child s m) d a b true).1
          with hrdef
        set w := (plainSearch term eval moves child (child s m) d true).1
          with hwdef
        have HPm : max a (min b r) = max a (min b w) := HP (child s m) a b true
        rcases le_or_lt b r with hbr | hbr
        · have hnb : ¬ min b r ≤ a := by
            rw [min_eq_left hbr]
            exact hba
          rw [if_neg hnb, min_eq_left hbr, xq_if_gt_min cur r]
          have hbw : b ≤ w := by
            apply xq_ge_of_clamp_eq a b w hab
            rw [← HPm, min_eq_left hbr, max_eq_right hab.le]
          rw [ih s a b (min cur r) (if r < cur then some m else bm) none
            (le_min hcur hbr)]
          rw [plainMinLoop_fst_start term eval moves child d rest s
            (min cur r) none]
          by_cases hwc : w < cur
          · rw [if_pos hwc, plainMinLoop_fst_start term eval moves child d
              rest s w (some m)]
            rw [xq_clamp_min_start a b (min cur r) _ (le_min hcur hbr),
              xq_clamp_min_start a b w _ hbw]
          · rw [if_neg hwc, plainMinLoop_fst_start term eval moves child d
              rest s cur bp]
            rw [xq_clamp_min_start a b (min cur r) _ (le_min hcur hbr),
              xq_clamp_min_start a b cur _ hcur]
        · have hminr : min b r = r := min_eq_right hbr.le
          rcases le_or_lt r a with hra | hra
          · have hbreak : min b r ≤ a := by
              rw [hminr]
              exact hra
            rw [if_pos hbreak]
            have hcr : r < cur :=
              lt_of_le_of_lt hra (lt_of_lt_of_le hab hcur)
            have hwa : w ≤ a := by
              apply xq_le_of_clamp_eq a b w hab
              rw [← HPm, hminr, max_eq_left hra]
            have hwc : w < cur :=
              lt_of_le_of_lt hwa (lt_of_lt_of_le hab hcur)
            rw [if_pos hwc]
            have hle := plainMinLoop_fst_le term eval moves child d rest s w
              (some m)
            have hL : (((if r < cur then r else cur) : XQ),
                (if r < cur then some m else bm)).1 = r := by
              rw [if_pos hcr]
            rw [hL, hminr, max_eq_left hra,
              min_eq_right (le_of_lt (lt_of_le_of_lt (le_trans hle hwa) hab)),
              max_eq_left (le_trans hle hwa)]
          · have hnb : ¬ min b r ≤ a := by
              rw [hminr]
              exact not_le.mpr hra
            rw [if_neg hnb, hminr]
            have hw : w = r := by
              apply xq_eq_of_clamp_eq a b w r hra hbr
              rw [← HPm, hminr, max_eq_right hra.le]
            have hcr : r < cur := lt_of_lt_of_le hbr hcur
            rw [hw, if_pos hcr, if_pos hcr, if_pos hcr]
            have hA := abMinLoop_fst_le term eval moves child d rest s a r r
              (some m)
            have hP := plainMinLoop_fst_le term eval moves child d rest s r
              (some m)
            rw [xq_clamp_narrow a r b _ hbr hA,
              xq_clamp_narrow a r b _ hbr hP]
            exact ih s a r r (some m) (some m) (le_refl r)

end SearchClampMin

section SearchValue

variable {S M : Type} (term : S → Bool) (eval : S → ℚ) (moves : S → List M)
  (child : S → M → S)

theorem searchClamp (d : Nat) :
    ∀ (s : S) (a b : XQ) (mx : Bool),
      max a (min b (abSearch term eval moves child s d a b mx).1) =
        max a (min b (plainSearch term eval moves child s d mx).1) := by
  induction d with
  | zero =>
      intro s a b mx
      rw [abSearch, plainSearch]
  | succ d ihd =>
      intro s a b mx
      rw [abSearch, plainSearch]
      by_cases h : term s
      · rw [if_pos h, if_pos h]
      · rw [if_neg h, if_neg h]
        cases mx
        · exact loopMinClamp term eval moves child d ihd (moves s) s a b ⊤
            none none le_top
        · exact loopMaxClamp term eval moves child d ihd (moves s) s a b ⊥
            none none bot_le

end SearchValue

section SearchRoot

variable {S M : Type} (term : S → Bool) (eval : S → ℚ) (moves : S → List M)
  (child : S → M → S)

theorem rootMaxLoop (d : Nat)
    (HP : ∀ (s : S) (a b : XQ) (mx : Bool),
      max a (min b (abSearch term eval moves child s d a b mx).1) =
        max a (min b (plainSearch term eval moves child s d mx).1)) :
    ∀ (ms : List M) (s : S) (a : XQ) (bm : Option M),
      abMaxLoop term eval moves child s d ms a ⊤ a bm =
        plainMaxLoop term eval moves child s d ms a bm := by
  intro ms
  induction ms with
  | nil =>
      intro s a bm
      rw [abMaxLoop, plainMaxLoop]
  | cons m rest ih =>
      intro s a bm
      rw [abMaxLoop, plainMaxLoop]
      set r := (abSearch term eval moves child (child s m) d a ⊤ false).1
        with hrdef
      set w := (plainSearch term eval moves child (child s m) d false).1
        with hwdef
      have HPm : max a r = max a w := by
        have h := HP (child s m) a ⊤ false
        rwa [xq_min_top, xq_min_top] at h
      rcases lt_or_ge a r with har | har
      · have hmr : max a r = r := max_eq_right har.le
        have haw : a < w := by
          by_contra hle
          push_neg at hle
          rw [hmr, max_eq_left hle] at HPm
          rw [HPm] at har
          exact lt_irrefl a har
        have hw : w = r := by
          rw [hmr, max_eq_right haw.le] at HPm
          exact HPm.symm
        rw [hw]
        rcases eq_or_ne r ⊤ with htop | htop
        · have hbrk : (⊤ : XQ) ≤ max a r := by
            rw [hmr, htop]
          rw [if_pos hbrk, if_pos har, if_pos har, if_pos har, htop,
            plainMaxLoop_top]
        · have hnb : ¬ (⊤ : XQ) ≤ max a r := by
            rw [hmr]
            exact fun hh => htop (top_le_iff.mp hh)
          rw [if_neg hnb, if_pos har, if_pos har, if_pos har, hmr]
          exact ih s r (some m)
      · have hmr : max a r = a := max_eq_left har
        have hwa : w ≤ a := by
          rw [hmr] at HPm
          by_contra hgt
          push_neg at hgt
          rw [max_eq_right hgt.le] at HPm
          rw [← HPm] at hgt
          exact lt_irrefl a hgt
        have hnlt : ¬ a < r := not_lt.mpr har
        have hnltw : ¬ a < w := not_lt.mpr hwa
        rw [if_neg hnlt, if_neg hnlt, if_neg hnltw, hmr]
        rcases eq_or_ne a ⊤ with htop | htop
        · have hself : (⊤ : XQ) ≤ a := by
            rw [htop]
          rw [if_pos hself, htop, plainMaxLoop_top]
        · have hnb : ¬ (⊤ : XQ) ≤ a := fun hh => htop (top_le_iff.mp hh)
          rw [if_neg hnb]
          exact ih s a bm

theorem rootMinLoop (d : Nat)
    (HP : ∀ (s : S) (a b : XQ) (mx : Bool),
      max a (min b (abSearch term eval moves child s d a b mx).1) =
        max a (min b (plainSearch term eval moves child s d mx).1)) :
    ∀ (ms : List M) (s : S) (b : XQ) (bm : Option M),
      abMinLoop term eval moves child s d ms ⊥ b b bm =
        plainMinLoop term eval moves child s d ms b bm := by
  intro ms
  induction ms with
  | nil =>
      intro s b bm
      rw [abMinLoop, plainMinLoop]
  | cons m rest ih =>
      intro s b bm
      rw [abMinLoop, plainMinLoop]
      set r := (abSearch term eval moves child (child s m) d ⊥ b true).1
        with hrdef
      set w := (plainSearch term eval moves child (child s m) d true).1
        with hwdef
      have HPm : min b r = min b w := by
        have h := HP (child s m) ⊥ b true
        rwa [xq_max_bot, xq_max_bot] at h
      rcases lt_or_ge r b with hrb | hrb
      · have hmr : min b r = r := min_eq_right hrb.le
        have hwb : w < b := by
          by_contra hle
          push_neg at hle
          rw [hmr, min_eq_left hle] at HPm
          rw [HPm] at hrb
          exact lt_irrefl b hrb
        have hw : w = r := by
          rw [hmr, min_eq_right hwb.le] at HPm
          exact HPm.symm
        rw [hw]
        rcases eq_or_ne r ⊥ with hbot | hbot
        · have hbrk : min b r ≤ (⊥ : XQ) := by
            rw [hmr, hbot]
          rw [if_pos hbrk, if_pos hrb, if_pos hrb, if_pos hrb, hbot,
            plainMinLoop_bot]
        · have hnb : ¬ min b r ≤ (⊥ : XQ) := by
            rw [hmr]
            exact fun hh => hbot (le_bot_iff.mp hh)
          rw [if_neg hnb, if_pos hrb, if_pos hrb, if_pos hrb, hmr]
          exact ih s r (some m)
      · have hmr : min b r = b := min_eq_left hrb
        have hbw : b ≤ w := by
          rw [hmr] at HPm
          by_contra hgt
          push_neg at hgt
          rw [min_eq_right hgt.le] at HPm
          rw [← HPm] at hgt
          exact lt_irrefl b hgt
        have hnlt : ¬ r < b := not_lt.mpr hrb
        have hnltw : ¬ w < b := not_lt.mpr hbw
        rw [if_neg hnlt, if_neg hnlt, if_neg hnltw, hmr]
        rcases eq_or_ne b ⊥ with hbot | hbot
        · have hself : b ≤ (⊥ : XQ) := by
            rw [hbot]
          rw [if_pos hself, hbot, plainMinLoop_bot]
        · have hnb : ¬ b ≤ (⊥ : XQ) := fun hh => hbot (le_bot_iff.mp hh)
          rw [if_neg hnb]
          exact ih s b bm

theorem searchRootEq (d : Nat) :
    ∀ (s : S) (mx : Bool),
      abSearch term eval moves child s d ⊥ ⊤ mx =
        plainSearch term eval moves child s d mx := by
  intro s mx
  cases d with
  | zero => rw [abSearch, plainSearch]
  | succ d =>
      rw [abSearch, plainSearch]
      by_cases h : term s
      · rw [if_pos h, if_pos h]
      · rw [if_neg h, if_neg h]
        cases mx
        · exact rootMinLoop term eval moves child d
            (searchClamp term eval moves child d) (moves s) s ⊤ none
        · exact rootMaxLoop term eval moves child d
            (searchClamp term eval moves child d) (moves s) s ⊥ none

end SearchRoot

/-- C7: for every state and every depth, `minimax` with alpha-beta
pruning invoked with the full window (`alpha = -inf`, `beta = +inf`)
returns exactly the same result — score and chosen move — as the unpruned
reference search with the same generator order and strict-improvement
first-tie-wins selection; stated for both modules and both root
orientations. -/
theorem minimax_alpha_beta_equiv :
    (∀ (s : Assignment.GameState) (depth : Nat) (maximizing_player : Bool),
      s.minimax depth ⊥ ⊤ maximizing_player =
        s.plain_minimax depth maximizing_player) ∧
    (∀ (g : Game.GameState) (depth : Nat) (maximizing_player : Bool),
      g.minimax depth maximizing_player ⊥ ⊤ =
        g.plain_minimax depth maximizing_player) :=
  ⟨fun s depth mx =>
    searchRootEq Assignment.winnerFlag
      Assignment.GameState.evaluate_heuristic
      Assignment.GameState.get_possible_moves Assignment.childState depth s mx,
   fun g depth mx =>
    searchRootEq Game.winnerFlag Game.GameState.evaluate_heuristic
      Game.GameState.get_possible_moves Game.childState depth g mx⟩
